import Mathlib

/-!
Verification development for the `ai-code-reviewer-mcp` repository.

The TypeScript core (files `code-reviewer.ts` and `code-analyzer.ts`) is given
a shallow embedding below.  Text is modelled as `List Char` (`Str`): every
JavaScript string operation used by the source (`split`, `startsWith`,
`endsWith`, `includes`, `trim`, `toLowerCase`, `slice`, `substring`,
`padStart`) is total on this representation, and the handful of regular
expressions the source applies are compiled by hand into backtracking
character-list matchers whose semantics follow ECMAScript regexes without
flags (in particular `.` does not match a newline, character classes do).
JavaScript `Array.prototype.sort` (stable since ES2019) is modelled by a
stable insertion sort parameterised by the numeric comparator.
-/

namespace AiCodeReviewer

/-- Strings are modelled as lists of characters. -/
abbrev Str := List Char

/-- Coerce a Lean string literal to the character-list representation. -/
def str (s : String) : Str := s.toList

/-- JavaScript `\s` (the whitespace characters that can occur in diff text). -/
def jsWs (c : Char) : Bool :=
  c = ' ' || c = '\t' || c = '\n' || c = '\r' || c = '\x0b' || c = '\x0c'

/-- JavaScript `\w`: ASCII letters, digits and underscore. -/
def isWordChar (c : Char) : Bool := c.isAlpha || c.isDigit || c = '_'

/-- The quote class `['"]` used by the secret detector and the masking step. -/
def isQuote (c : Char) : Bool := c = '\'' || c = '"'

/-- JavaScript `String.prototype.trim`. -/
def jsTrim (s : Str) : Str :=
  ((s.dropWhile jsWs).reverse.dropWhile jsWs).reverse

/-- JavaScript `String.prototype.toLowerCase` (ASCII fragment). -/
def lcStr (s : Str) : Str := s.map Char.toLower

/-- JavaScript `str.startsWith(p)`. -/
def startsWithS (p : String) (l : Str) : Bool := (str p).isPrefixOf l

/-- JavaScript `str.includes(p)`: `p` occurs as a contiguous substring. -/
def includesS (p : Str) : Str → Bool
  | [] => p.isPrefixOf []
  | c :: cs => p.isPrefixOf (c :: cs) || includesS p cs

/-! ### Hand-compiled regular-expression matchers

A matcher takes a continuation and the remaining input; `mSearch` tries the
matcher at every start position, which is exactly the acceptance question
answered by JavaScript `String.prototype.match` used as a boolean test. -/

/-- Matcher type: continuation-passing acceptance test. -/
abbrev M := (List Char → Bool) → List Char → Bool

/-- Match one character satisfying `p` (a character class). -/
def mCls (p : Char → Bool) : M := fun k s =>
  match s with
  | [] => false
  | c :: cs => p c && k cs

/-- Match a literal string. -/
def mStr (t : Str) : M := fun k s =>
  if t.isPrefixOf s then k (s.drop t.length) else false

/-- Sequencing of matchers. -/
def mSeq (m₁ m₂ : M) : M := fun k => m₁ (m₂ k)

/-- Alternation of matchers. -/
def mAlt (m₁ m₂ : M) : M := fun k s => m₁ k s || m₂ k s

/-- Optional group `(?:m)?`. -/
def mOpt (m : M) : M := fun k s => m k s || k s

/-- Kleene star over a character class, with full backtracking. -/
def mStar (p : Char → Bool) (k : List Char → Bool) : List Char → Bool
  | [] => k []
  | c :: cs => k (c :: cs) || (p c && mStar p k cs)

/-- One-or-more repetition of a character class. -/
def mPlus (p : Char → Bool) : M := mSeq (mCls p) (mStar p)

/-- The regex `.` (any character except a newline). -/
def mAny : Char → Bool := fun c => c ≠ '\n'

/-- Accept anything: final continuation of an acceptance test. -/
def mTop : List Char → Bool := fun _ => true

/-- Unanchored search: try the matcher at every start position
(`String.prototype.match` as a boolean test). -/
def mSearch (m : M) : List Char → Bool
  | [] => m mTop []
  | c :: cs => m mTop (c :: cs) || mSearch m (c :: cs).tail

/-- Anchored test at the start of the string (a `^`-anchored regex). -/
def mHead (m : M) (s : List Char) : Bool := m mTop s

/-- Case-insensitive unanchored search (a regex with the `i` flag): the
subject is lowercased and matched against a lowercase pattern. -/
def mSearchCI (m : M) (s : Str) : Bool := mSearch m (lcStr s)

/-! ### Data model (`code-reviewer.ts` interfaces) -/

/-- The `type` field of a `LineChange`. -/
inductive LineType where
  | addition
  | deletion
  | context
deriving DecidableEq

/-- `LineChange` — one line inside a hunk. -/
structure LineChange where
  type : LineType
  lineNumber : Nat
  content : Str
deriving DecidableEq

/-- `FileChange` — one file touched by the diff. -/
structure FileChange where
  fileName : Str
  oldFileName : Str
  isDeleted : Bool
  isNewFile : Bool
  additions : Nat
  deletions : Nat
  changes : List LineChange
  rawDiff : Str
deriving DecidableEq

/-- The `severity` field of a `ReviewIssue`. -/
inductive Severity where
  | critical
  | major
  | minor
  | info
deriving DecidableEq

/-- `ReviewIssue` — one finding (optional fields are `Option`al exactly as in
the TypeScript interface). -/
structure ReviewIssue where
  severity : Severity
  title : Str
  description : Str
  file : Str
  line : Option Nat
  suggestion : Option Str
  codeSnippet : Option Str
  language : Option Str
deriving DecidableEq

/-- `ReviewResult` — aggregate output of one review invocation. -/
structure ReviewResult where
  filesChanged : Nat
  linesAdded : Nat
  linesRemoved : Nat
  issues : List ReviewIssue
  summary : Option Str
deriving DecidableEq

/-- The fields of `ReviewOptions` consumed by `analyzeDiff`. -/
structure ReviewOptions where
  reviewPrompt : Option Str
  fileExtensions : Option (List Str)
  excludePatterns : Option (List Str)

/-! ### DiffParser (`CodeReviewer.parseDiff`)

The source splits the diff text on `/^diff --git/m` and then splits every
block on `'\n'`.  The embedding splits the whole text into lines first and
groups them at lines beginning with the literal `diff --git`; the two
decompositions yield the same line sequences except that a block followed by
another block additionally ends with one empty-string line in the source
(the remainder of the `'\n'` that precedes the next header), and an empty
line is inert in the per-line scan below (it is neither an addition, a
deletion, a hunk header nor a context line, because `line.trim() !== ''`
fails), so every observable field of the result agrees. -/

/-- JavaScript `diff.split('\n')`. -/
def splitLines : Str → List Str
  | [] => [[]]
  | c :: rest =>
    if c = '\n' then [] :: splitLines rest
    else
      match splitLines rest with
      | [] => [[c]]
      | l :: ls => (c :: l) :: ls

/-- The per-file header token `diff --git`. -/
def dgTok : Str := str "diff --git"

/-- A line at which `/^diff --git/m` splits the diff text. -/
def isBlockStart (l : Str) : Bool := dgTok.isPrefixOf l

/-- Accumulate the lines of the current block (held in reverse in `cur`),
emitting it when the next block header — or the end of the text — is
reached. -/
def splitBlocksGo (cur : List Str) : List Str → List (List Str)
  | [] => [cur.reverse]
  | l :: ls =>
    if isBlockStart l then cur.reverse :: splitBlocksGo [l.drop dgTok.length] ls
    else splitBlocksGo (l :: cur) ls

/-- Group the lines of the diff into per-file blocks: the preamble before the
first `diff --git` line is discarded (`slice(1)` in the source) and each
block starts with the remainder of its header line after the
`diff --git` token (that remainder is what `hunk.split('\n')[0]` holds in
the source). -/
def splitBlocks : List Str → List (List Str)
  | [] => []
  | l :: ls =>
    if isBlockStart l then splitBlocksGo [l.drop dgTok.length] ls
    else splitBlocks ls

/-- Split a list at the first occurrence of `sep`, returning the parts
before and after it (the lazy group split `(.*?) b\/` of the header regex). -/
def splitFirstAt (sep : Str) : Str → Option (Str × Str)
  | [] => if sep.isPrefixOf ([] : Str) then some ([], []) else none
  | c :: cs =>
    if sep.isPrefixOf (c :: cs) then some ([], (c :: cs).drop sep.length)
    else (splitFirstAt sep cs).map (fun p => (c :: p.1, p.2))

/-- `header.match(/^diff --git a\/(.*?) b\/(.*?)$/)` applied to
`'diff --git' + lines[0]`: the argument is `lines[0]` (which always follows
the literal `diff --git`), the result the two captured path groups.  The
lazy first group together with the end anchor make the split happen at the
first occurrence of `' b/'`. -/
def matchHeaderRest (rest : Str) : Option (Str × Str) :=
  if (str " a/").isPrefixOf rest then splitFirstAt (str " b/") (rest.drop 3)
  else none

/-- Value of a maximal decimal-digit run, as consumed by `parseInt`. -/
def natOfDigits (ds : Str) : Nat :=
  ds.foldl (fun a c => a * 10 + (c.toNat - '0'.toNat)) 0

/-- Try the hunk-header regex `@@ -(\d+),?\d* \+(\d+),?\d* @@` at the start
of `s`, yielding the two captured start offsets. -/
def tryHunkAt (s : Str) : Option (Nat × Nat) :=
  if (str "@@ -").isPrefixOf s then
    let r := s.drop 4
    let p1 := r.span Char.isDigit
    if p1.1.isEmpty then none
    else
      let r2 := match p1.2 with
        | ',' :: t => (t.span Char.isDigit).2
        | other => other
      match r2 with
      | ' ' :: '+' :: r3 =>
        let p2 := r3.span Char.isDigit
        if p2.1.isEmpty then none
        else
          let r5 := match p2.2 with
            | ',' :: t => (t.span Char.isDigit).2
            | other => other
          match r5 with
          | ' ' :: '@' :: '@' :: _ => some (natOfDigits p1.1, natOfDigits p2.1)
          | _ => none
      | _ => none
  else none

/-- Unanchored search for the hunk-header regex
(`line.match(/@@ -(\d+),?\d* \+(\d+),?\d* @@/)`). -/
def matchHunkHeader : Str → Option (Nat × Nat)
  | [] => none
  | c :: cs =>
    match tryHunkAt (c :: cs) with
    | some v => some v
    | none => matchHunkHeader cs

/-- The mutable block-scan state of `parseDiff`'s `lines.forEach` loop. -/
structure ParseState where
  additions : Nat
  deletions : Nat
  changes : List LineChange
  currentLineOld : Nat
  currentLineNew : Nat
deriving DecidableEq

/-- The outcome of the branch cascade of `parseDiff`'s `lines.forEach`
body for one line. -/
inductive LineKind where
  | hunkHeader : Option (Nat × Nat) → LineKind
  | add : LineKind
  | del : LineKind
  | ctx : LineKind
  | skip : LineKind
deriving DecidableEq

/-- The branch cascade of `parseDiff`'s `lines.forEach` body, translated
condition for condition: hunk-header lines (with the result of the header
regex), additions, deletions, context lines, and dropped lines. -/
def classifyLine (line : Str) : LineKind :=
  if startsWithS "@@" line then .hunkHeader (matchHunkHeader line)
  else if startsWithS "+" line && !startsWithS "+++" line then .add
  else if startsWithS "-" line && !startsWithS "---" line then .del
  else if !startsWithS "\\" line && !startsWithS "diff" line &&
      !startsWithS "index" line && !startsWithS "+++" line &&
      !startsWithS "---" line && !startsWithS "@@" line &&
      !(jsTrim line).isEmpty then .ctx
  else .skip

/-- One iteration of the `lines.forEach` scan of `parseDiff`: the branch
bodies of the source, dispatched on `classifyLine`. -/
def lineStep (s : ParseState) (line : Str) : ParseState :=
  match classifyLine line with
  | .hunkHeader (some hdr) =>
    { s with currentLineOld := hdr.1, currentLineNew := hdr.2 }
  | .hunkHeader none => s
  | .add =>
    { s with
      additions := s.additions + 1
      changes := s.changes ++
        [{ type := .addition, lineNumber := s.currentLineNew, content := line.drop 1 }]
      currentLineNew := s.currentLineNew + 1 }
  | .del =>
    { s with
      deletions := s.deletions + 1
      changes := s.changes ++
        [{ type := .deletion, lineNumber := s.currentLineOld, content := line.drop 1 }]
      currentLineOld := s.currentLineOld + 1 }
  | .ctx =>
    { s with
      changes := s.changes ++
        [{ type := .context, lineNumber := s.currentLineOld,
           content := if startsWithS " " line then line.drop 1 else line }]
      currentLineOld := s.currentLineOld + 1
      currentLineNew := s.currentLineNew + 1 }
  | .skip => s

/-- Parse one per-file block; `none` when the header line does not match the
`a/<old-path> b/<new-path>` pattern (the `if (!fileMatch) return;` of the
source — the block is silently dropped).  The `rawDiff` field re-joins the
block's lines; it is opaque to every downstream consumer. -/
def parseBlock (lines : List Str) : Option FileChange :=
  match matchHeaderRest (lines.headD []) with
  | none => none
  | some names =>
    let st := lines.foldl lineStep ⟨0, 0, [], 0, 0⟩
    some
      { fileName := names.2
        oldFileName := names.1
        isDeleted := lines.any (startsWithS "deleted file mode")
        isNewFile := lines.any (startsWithS "new file mode")
        additions := st.additions
        deletions := st.deletions
        changes := st.changes
        rawDiff := dgTok ++ List.intercalate (str "\n") lines }

/-- The `files.push(...)` step of `parseDiff`'s block loop (a skipped block
pushes nothing). -/
def pushParsed (acc : List FileChange) (b : List Str) : List FileChange :=
  match parseBlock b with
  | some fc => acc ++ [fc]
  | none => acc

/-- `CodeReviewer.parseDiff`: split into blocks, scan each block, push the
successfully parsed ones in order. -/
def parseDiff (diff : Str) : List FileChange :=
  (splitBlocks (splitLines diff)).foldl pushParsed []

/-! ### Stable sorting (`Array.prototype.sort`)

Since ES2019 `Array.prototype.sort` is required to be stable.  For a
consistent comparator `c` the sorted sequence is uniquely determined: `y`
precedes `x` exactly when `c y x < 0`, or when `c y x = 0` and `y` came
first.  The insertion sort below realises exactly that sequence. -/

/-- Insert `x` into `l`, keeping every `y` with `c y x < 0` in front of it
(stable: `x` lands before the elements it ties with, which all come from
later positions of the original array). -/
def jsSortInsert (c : α → α → Int) (x : α) : List α → List α
  | [] => [x]
  | y :: ys => if c y x < 0 then y :: jsSortInsert c x ys else x :: y :: ys

/-- JavaScript `arr.sort(c)` for a consistent comparator `c` (stable). -/
def jsSort (c : α → α → Int) (l : List α) : List α :=
  l.foldr (jsSortInsert c) []

/-- `CodeReviewer.getSeverityWeight` (the `default: return 0` arm of the
source is unreachable: the enumeration has exactly the four listed tags). -/
def getSeverityWeight : Severity → Nat
  | .critical => 4
  | .major => 3
  | .minor => 2
  | .info => 1

/-- The comparator `(a, b) => getSeverityWeight(b.severity) - getSeverityWeight(a.severity)`
passed to the final `issues.sort` of `analyzeDiff`. -/
def severityComparator (a b : ReviewIssue) : Int :=
  (getSeverityWeight b.severity : Int) - (getSeverityWeight a.severity : Int)

/-- The sorted final issue sequence of `analyzeDiff`. -/
def sortIssues (l : List ReviewIssue) : List ReviewIssue :=
  jsSort severityComparator l

/-! ### FileFilter (`CodeReviewer.filterFiles`) -/

/-- The extension allow-list test of `filterFiles`: with a non-empty list,
keep only files whose lowercased name ends with a lowercased extension. -/
def extensionPass (extensions : Option (List Str)) (file : FileChange) : Bool :=
  match extensions with
  | some exts =>
    if exts.length > 0 then
      exts.any (fun ext => (lcStr ext).isSuffixOf (lcStr file.fileName))
    else true
  | none => true

/-- The exclude-pattern test of `filterFiles`: with a non-empty list, drop
any file whose lowercased name contains a lowercased pattern. -/
def excludePass (patterns : Option (List Str)) (file : FileChange) : Bool :=
  match patterns with
  | some pats =>
    if pats.length > 0 then
      !(pats.any (fun pat => includesS (lcStr pat) (lcStr file.fileName)))
    else true
  | none => true

/-- `CodeReviewer.filterFiles`: the callback returns `false` on a failed
extension check, `false` on a matched exclude pattern, `true` otherwise —
i.e. the conjunction of the two tests. -/
def filterFiles (files : List FileChange) (extensions : Option (List Str))
    (excludePatterns : Option (List Str)) : List FileChange :=
  files.filter (fun file => extensionPass extensions file && excludePass excludePatterns file)

/-! ### Extension and language helpers (`code-analyzer.ts`) -/

/-- `CodeAnalyzer.getFileExtension`: the match of `/\.[^.]*$/` on the
lowercased file name — the last `'.'` together with everything after it,
or the empty string when the name contains no `'.'`. -/
def getFileExtension (fileName : Str) : Str :=
  let p := (lcStr fileName).reverse.span (fun c => c ≠ '.')
  match p.2 with
  | '.' :: _ => '.' :: p.1.reverse
  | _ => []

/-- `CodeAnalyzer.getLanguageFromExtension`: the fixed extension→language
map with default `text`. -/
def getLanguageFromExtension (ext : Str) : Str :=
  if ext = str ".js" then str "javascript"
  else if ext = str ".ts" then str "typescript"
  else if ext = str ".py" then str "python"
  else if ext = str ".java" then str "java"
  else if ext = str ".c" then str "c"
  else if ext = str ".cpp" then str "cpp"
  else if ext = str ".cs" then str "csharp"
  else if ext = str ".php" then str "php"
  else if ext = str ".rb" then str "ruby"
  else if ext = str ".go" then str "go"
  else if ext = str ".rs" then str "rust"
  else if ext = str ".swift" then str "swift"
  else if ext = str ".kt" then str "kotlin"
  else if ext = str ".scala" then str "scala"
  else if ext = str ".html" then str "html"
  else if ext = str ".css" then str "css"
  else if ext = str ".scss" then str "scss"
  else if ext = str ".less" then str "less"
  else if ext = str ".json" then str "json"
  else if ext = str ".xml" then str "xml"
  else if ext = str ".yaml" then str "yaml"
  else if ext = str ".yml" then str "yaml"
  else str "text"

/-! ### Context-window extractor (`CodeAnalyzer.getCodeContext`) -/

/-- The numeric ascending comparator `(a, b) => a.lineNumber - b.lineNumber`
used to sort a file's changes by line number. -/
def lineNumberComparator (a b : LineChange) : Int :=
  (a.lineNumber : Int) - (b.lineNumber : Int)

/-- `[...fileChange.changes].sort((a, b) => a.lineNumber - b.lineNumber)`. -/
def sortedChanges (fc : FileChange) : List LineChange :=
  jsSort lineNumberComparator fc.changes

/-- JavaScript `arr.slice(-n)` — the last `n` elements; `slice(-0)` is
`slice(0)`, the whole array. -/
def jsSliceLast (n : Nat) (l : List α) : List α :=
  if n = 0 then l else l.drop (l.length - n)

/-- The `beforeLines` of `getCodeContext`: changes with line number in
`[target - N, target)`, keeping only the last `N` of them. -/
def ctxBefore (fc : FileChange) (target contextLines : Nat) : List LineChange :=
  jsSliceLast contextLines
    ((sortedChanges fc).filter (fun l =>
      decide (l.lineNumber < target) && decide (target - contextLines ≤ l.lineNumber)))

/-- The `afterLines` of `getCodeContext`: changes with line number in
`(target, target + N]`, keeping only the first `N` of them. -/
def ctxAfter (fc : FileChange) (target contextLines : Nat) : List LineChange :=
  ((sortedChanges fc).filter (fun l =>
    decide (target < l.lineNumber) && decide (l.lineNumber ≤ target + contextLines))).take
    contextLines

/-- JavaScript `String(n).padStart(3, ' ')`. -/
def padStart3 (n : Nat) : Str :=
  let s := (Nat.repr n).toList
  List.replicate (3 - s.length) ' ' ++ s

/-- The `+`/`-`/space type indicator of a formatted context line. -/
def typeIndicator : LineType → Char
  | .addition => '+'
  | .deletion => '-'
  | .context => ' '

/-- One formatted context line: directional marker, line-number gutter,
type indicator, then the content (`line.content || ''` is the identity on
strings, the empty string being replaced by itself). -/
def formatCtxLine (target : Nat) (l : LineChange) : Str :=
  (if l.lineNumber = target then str "> " else str "  ") ++
    padStart3 l.lineNumber ++ [typeIndicator l.type] ++ [' '] ++ l.content

/-- The `contextLinesData` selection of `getCodeContext`:
`beforeLines ++ [targetLine] ++ afterLines`. -/
def contextSelection (fc : FileChange) (target contextLines : Nat)
    (targetLine : LineChange) : List LineChange :=
  ctxBefore fc target contextLines ++ targetLine :: ctxAfter fc target contextLines

/-- `CodeAnalyzer.getCodeContext`: find the target line among the sorted
changes, assemble the window, format it; a missing target yields the
`// Line N not found in changes` comment, and a one-element window is
rendered through the dedicated single-line branch of the source. -/
def getCodeContext (fc : FileChange) (targetLineNumber : Nat)
    (contextLines : Nat) : Str :=
  match (sortedChanges fc).find? (fun l => l.lineNumber = targetLineNumber) with
  | none =>
    str "// Line " ++ (Nat.repr targetLineNumber).toList ++ str " not found in changes"
  | some targetLine =>
    let data := contextSelection fc targetLineNumber contextLines targetLine
    if data.length = 1 then
      str "> " ++ padStart3 targetLine.lineNumber ++
        [typeIndicator targetLine.type] ++ [' '] ++ targetLine.content
    else
      List.intercalate (str "\n") (data.map (formatCtxLine targetLineNumber))

/-! ### Quote masking (the secret detector's snippet post-processing)

`snippet.replace(/(['"])[^'"]*(['"])/g, '$1***$2')`: repeatedly find a
quote, a run of non-quote characters and a closing quote, and replace the
run by `***`; scanning resumes after each replacement. -/

/-- Split at the first quote character: `some (before, quote, after)`. -/
def splitAtQuote : Str → Option (Str × Char × Str)
  | [] => none
  | c :: cs =>
    if isQuote c then some ([], c, cs)
    else (splitAtQuote cs).map (fun p => (c :: p.1, p.2.1, p.2.2))

/-- The scanning loop of the global quote-masking replacement, structured
with explicit fuel (every step consumes at least one character, so the
initial fuel `s.length` supplied by `maskQuotes` never runs out). -/
def maskQuotesGo : Nat → Str → Str
  | 0, s => s
  | _ + 1, [] => []
  | fuel + 1, c :: cs =>
    if isQuote c then
      match splitAtQuote cs with
      | some (_, q, rest) => c :: '*' :: '*' :: '*' :: q :: maskQuotesGo fuel rest
      | none => c :: cs
    else c :: maskQuotesGo fuel cs

/-- The global quote-masking replacement. -/
def maskQuotes (s : Str) : Str := maskQuotesGo s.length s

/-! ### Detector pattern tests (the regexes of `code-analyzer.ts`) -/

/-- Boundary test after a word: end of string or a non-word character. -/
def boundaryAfter : Str → Bool
  | [] => true
  | c :: _ => !isWordChar c

/-- `\b(todo|fixme)\b` at the current (lowercased) position; the preceding
boundary is checked by the caller. -/
def todoAt (s : Str) : Bool :=
  ((str "todo").isPrefixOf s && boundaryAfter (s.drop 4)) ||
    ((str "fixme").isPrefixOf s && boundaryAfter (s.drop 5))

/-- Scan for a word-boundary-delimited occurrence, tracking the previous
character. -/
def todoScan (prev : Option Char) : Str → Bool
  | [] => false
  | c :: cs =>
    ((match prev with
      | none => true
      | some p => !isWordChar p) && todoAt (c :: cs)) || todoScan (some c) cs

/-- `content.match(/\b(TODO|FIXME)\b/i)`. -/
def matchTodoFixme (s : Str) : Bool := todoScan none (lcStr s)

/-- `/(password|secret|key|token)\s*[:=]\s*['"][^'"]+['"]|api_key/i`. -/
def secretPat : M :=
  mAlt
    (mSeq
      (mAlt (mStr (str "password"))
        (mAlt (mStr (str "secret")) (mAlt (mStr (str "key")) (mStr (str "token")))))
      (mSeq (mStar jsWs)
        (mSeq (mCls (fun c => c = ':' || c = '='))
          (mSeq (mStar jsWs)
            (mSeq (mCls isQuote)
              (mSeq (mPlus (fun c => !isQuote c)) (mCls isQuote)))))))
    (mStr (str "api_key"))

/-- The hardcoded-secret test of `analyzeSecurityIssues`. -/
def matchSecret (s : Str) : Bool := mSearchCI secretPat s

/-- `/[^=!]==[^=]|[^=!]!=[^=]/`. -/
def looseEqPat : M :=
  mAlt
    (mSeq (mCls (fun c => c ≠ '=' && c ≠ '!'))
      (mSeq (mStr (str "==")) (mCls (fun c => c ≠ '='))))
    (mSeq (mCls (fun c => c ≠ '=' && c ≠ '!'))
      (mSeq (mStr (str "!=")) (mCls (fun c => c ≠ '='))))

/-- The loose-equality test of `analyzeBestPractices`. -/
def matchLooseEq (s : Str) : Bool := mSearch looseEqPat s

/-- `/\w+\.\w+/`. -/
def matchWordDotWord (s : Str) : Bool :=
  mSearch (mSeq (mPlus isWordChar) (mSeq (mCls (fun c => c = '.')) (mPlus isWordChar))) s

/-- `/\?\./`. -/
def matchOptChain (s : Str) : Bool := mSearch (mStr (str "?.")) s

/-- `/if\s*\(|&&|catch|try/`. -/
def matchGuard (s : Str) : Bool :=
  mSearch
    (mAlt (mSeq (mStr (str "if")) (mSeq (mStar jsWs) (mCls (fun c => c = '('))))
      (mAlt (mStr (str "&&")) (mAlt (mStr (str "catch")) (mStr (str "try"))))) s

/-- `/if\s*\([^)]*null/`. -/
def nullIfPat (word : Str) : M :=
  mSeq (mStr (str "if"))
    (mSeq (mStar jsWs)
      (mSeq (mCls (fun c => c = '(')) (mSeq (mStar (fun c => c ≠ ')')) (mStr word))))

/-- The per-change test of `hasNullCheckNearby`. -/
def nullCheckContent (s : Str) : Bool :=
  mSearch (nullIfPat (str "null")) s || mSearch (nullIfPat (str "undefined")) s ||
    mSearch (mSeq (mStr (str "&&")) (mSeq (mStar jsWs) (mPlus isWordChar))) s ||
    mSearch (mStr (str "?.")) s

/-- `Math.abs(a - b)` on line numbers. -/
def natDist (a b : Nat) : Nat := if b ≤ a then a - b else b - a

/-- `CodeAnalyzer.hasNullCheckNearby`: some change within three lines of
`lineNumber` matches one of the four guard patterns. -/
def hasNullCheckNearby (fc : FileChange) (lineNumber : Nat) : Bool :=
  (fc.changes.filter (fun c =>
    decide (natDist c.lineNumber lineNumber ≤ 3) && nullCheckContent c.content)).length > 0

/-- `/\[\s*\d+\s*\]/`. -/
def matchNumIndex (s : Str) : Bool :=
  mSearch
    (mSeq (mCls (fun c => c = '['))
      (mSeq (mStar jsWs)
        (mSeq (mPlus Char.isDigit) (mSeq (mStar jsWs) (mCls (fun c => c = ']')))))) s

/-- `/\[.*\]/`. -/
def matchAnyIndex (s : Str) : Bool :=
  mSearch (mSeq (mCls (fun c => c = '[')) (mSeq (mStar mAny) (mCls (fun c => c = ']')))) s

/-- `/\.length/`. -/
def matchDotLength (s : Str) : Bool := mSearch (mStr (str ".length")) s

/-- The guard of the array-access branch of `analyzeLogicalBugs`.  By
JavaScript operator precedence the source condition
`A || B && !C` groups as `A || (B && !C)`: a numeric bracket index is
flagged regardless of the `.length` test. -/
def arrayAccessCond (s : Str) : Bool :=
  matchNumIndex s || (matchAnyIndex s && !matchDotLength s)

/-- `/while\s*\(\s*true\s*\)|for\s*\(\s*;\s*;\s*\)/`. -/
def matchInfiniteLoop (s : Str) : Bool :=
  mSearch
    (mAlt
      (mSeq (mStr (str "while"))
        (mSeq (mStar jsWs)
          (mSeq (mCls (fun c => c = '('))
            (mSeq (mStar jsWs)
              (mSeq (mStr (str "true")) (mSeq (mStar jsWs) (mCls (fun c => c = ')'))))))))
      (mSeq (mStr (str "for"))
        (mSeq (mStar jsWs)
          (mSeq (mCls (fun c => c = '('))
            (mSeq (mStar jsWs)
              (mSeq (mCls (fun c => c = ';'))
                (mSeq (mStar jsWs)
                  (mSeq (mCls (fun c => c = ';'))
                    (mSeq (mStar jsWs) (mCls (fun c => c = ')'))))))))))) s

/-- `/if\s*\([^)]*=[^=]/`. -/
def matchAssignInCond (s : Str) : Bool :=
  mSearch
    (mSeq (mStr (str "if"))
      (mSeq (mStar jsWs)
        (mSeq (mCls (fun c => c = '('))
          (mSeq (mStar (fun c => c ≠ ')'))
            (mSeq (mCls (fun c => c = '=')) (mCls (fun c => c ≠ '='))))))) s

/-- `/return.*\n.*[^}]/` — note that any match must contain a literal
newline between the `return` and the trailing non-`}` character, because
`.` never matches a newline. -/
def matchUnreachable (s : Str) : Bool :=
  mSearch
    (mSeq (mStr (str "return"))
      (mSeq (mStar mAny)
        (mSeq (mCls (fun c => c = '\n'))
          (mSeq (mStar mAny) (mCls (fun c => c ≠ '\x7d')))))) s

/-- `/\+\s*['"]|['"].*\+/`. -/
def matchCoercion (s : Str) : Bool :=
  mSearch
    (mAlt (mSeq (mCls (fun c => c = '+')) (mSeq (mStar jsWs) (mCls isQuote)))
      (mSeq (mCls isQuote) (mSeq (mStar mAny) (mCls (fun c => c = '+'))))) s

/-- `/for\s*\([^)]*\.length[^)]*\)/`. -/
def matchLoopLength (s : Str) : Bool :=
  mSearch
    (mSeq (mStr (str "for"))
      (mSeq (mStar jsWs)
        (mSeq (mCls (fun c => c = '('))
          (mSeq (mStar (fun c => c ≠ ')'))
            (mSeq (mStr (str ".length"))
              (mSeq (mStar (fun c => c ≠ ')')) (mCls (fun c => c = ')')))))))) s

/-- `/for\s*\(/`. -/
def matchFor (s : Str) : Bool :=
  mSearch (mSeq (mStr (str "for")) (mSeq (mStar jsWs) (mCls (fun c => c = '(')))) s

/-- `/for\s*\(|while\s*\(|forEach\s*\(/`. -/
def matchAnyLoop (s : Str) : Bool :=
  mSearch
    (mAlt (mSeq (mStr (str "for")) (mSeq (mStar jsWs) (mCls (fun c => c = '('))))
      (mAlt (mSeq (mStr (str "while")) (mSeq (mStar jsWs) (mCls (fun c => c = '('))))
        (mSeq (mStr (str "forEach")) (mSeq (mStar jsWs) (mCls (fun c => c = '(')))))) s

/-- `CodeAnalyzer.hasNestedLoop`: some change within the next twenty line
numbers contains another loop construct. -/
def hasNestedLoop (fc : FileChange) (lineNumber : Nat) : Bool :=
  (fc.changes.filter (fun c =>
    decide (lineNumber < c.lineNumber) &&
      decide (c.lineNumber ≤ lineNumber + 20))).any (fun l => matchAnyLoop l.content)

/-- `/\.(readFileSync|writeFileSync|existsSync|statSync)\s*\(/`. -/
def matchSyncFs (s : Str) : Bool :=
  mSearch
    (mSeq (mCls (fun c => c = '.'))
      (mSeq
        (mAlt (mStr (str "readFileSync"))
          (mAlt (mStr (str "writeFileSync"))
            (mAlt (mStr (str "existsSync")) (mStr (str "statSync")))))
        (mSeq (mStar jsWs) (mCls (fun c => c = '('))))) s

/-- `/\+=.*['"]/`. -/
def matchConcat (s : Str) : Bool :=
  mSearch (mSeq (mStr (str "+=")) (mSeq (mStar mAny) (mCls isQuote))) s

/-- `/function.*\(.*\).*\{/`. -/
def matchFunctionBrace (s : Str) : Bool :=
  mSearch
    (mSeq (mStr (str "function"))
      (mSeq (mStar mAny)
        (mSeq (mCls (fun c => c = '('))
          (mSeq (mStar mAny)
            (mSeq (mCls (fun c => c = ')'))
              (mSeq (mStar mAny) (mCls (fun c => c = '\x7b')))))))) s

/-- `CodeAnalyzer.hasExpensiveOperation`. -/
def hasExpensiveOperation (s : Str) : Bool :=
  mSearch (mSeq (mStr (str "sort")) (mSeq (mStar jsWs) (mCls (fun c => c = '(')))) s ||
  mSearch (mSeq (mStr (str "filter")) (mSeq (mStar jsWs) (mCls (fun c => c = '(')))) s ||
  mSearch (mSeq (mStr (str "map")) (mSeq (mStar jsWs) (mCls (fun c => c = '(')))) s ||
  mSearch (mSeq (mStr (str "reduce")) (mSeq (mStar jsWs) (mCls (fun c => c = '(')))) s ||
  mSearch (mAlt (mStr (str "JSON.parse")) (mStr (str "JSON.stringify"))) s ||
  mSearch (mAlt (mStr (str "RegExp")) (mSeq (mStr (str "new")) (mSeq (mPlus jsWs) (mStr (str "RegExp"))))) s

/-! ### JSDoc helpers (`code-analyzer.ts`) -/

/-- The result of `CodeAnalyzer.extractFunctionInfo`. -/
structure FunctionInfo where
  name : Str
  params : List Str
  hasReturn : Bool
deriving DecidableEq

/-- `^[\s]*(?:export\s+)?(?:async\s+)?function\s+\w+` (anchored). -/
def fnDeclPat1 : M :=
  mSeq (mStar jsWs)
    (mSeq (mOpt (mSeq (mStr (str "export")) (mPlus jsWs)))
      (mSeq (mOpt (mSeq (mStr (str "async")) (mPlus jsWs)))
        (mSeq (mStr (str "function")) (mSeq (mPlus jsWs) (mPlus isWordChar)))))

/-- `^[\s]*(?:const|let|var)\s+\w+\s*=\s*(?:async\s+)?\([^)]*\)\s*=>` (anchored). -/
def fnDeclPat2 : M :=
  mSeq (mStar jsWs)
    (mSeq (mAlt (mStr (str "const")) (mAlt (mStr (str "let")) (mStr (str "var"))))
      (mSeq (mPlus jsWs)
        (mSeq (mPlus isWordChar)
          (mSeq (mStar jsWs)
            (mSeq (mCls (fun c => c = '='))
              (mSeq (mStar jsWs)
                (mSeq (mOpt (mSeq (mStr (str "async")) (mPlus jsWs)))
                  (mSeq (mCls (fun c => c = '('))
                    (mSeq (mStar (fun c => c ≠ ')'))
                      (mSeq (mCls (fun c => c = ')'))
                        (mSeq (mStar jsWs) (mStr (str "=>")))))))))))))

/-- `^[\s]*(?:async\s+)?\w+\s*\([^)]*\)\s*\{` (anchored). -/
def fnDeclPat3 : M :=
  mSeq (mStar jsWs)
    (mSeq (mOpt (mSeq (mStr (str "async")) (mPlus jsWs)))
      (mSeq (mPlus isWordChar)
        (mSeq (mStar jsWs)
          (mSeq (mCls (fun c => c = '('))
            (mSeq (mStar (fun c => c ≠ ')'))
              (mSeq (mCls (fun c => c = ')'))
                (mSeq (mStar jsWs) (mCls (fun c => c = '\x7b')))))))))

/-- `^[\s]*(?:public|private|protected)\s+(?:async\s+)?\w+\s*\([^)]*\)` (anchored). -/
def fnDeclPat4 : M :=
  mSeq (mStar jsWs)
    (mSeq (mAlt (mStr (str "public")) (mAlt (mStr (str "private")) (mStr (str "protected"))))
      (mSeq (mPlus jsWs)
        (mSeq (mOpt (mSeq (mStr (str "async")) (mPlus jsWs)))
          (mSeq (mPlus isWordChar)
            (mSeq (mStar jsWs)
              (mSeq (mCls (fun c => c = '('))
                (mSeq (mStar (fun c => c ≠ ')')) (mCls (fun c => c = ')')))))))))

/-- `CodeAnalyzer.isFunctionDeclaration`. -/
def isFunctionDeclaration (content : Str) : Bool :=
  mHead fnDeclPat1 content || mHead fnDeclPat2 content ||
    mHead fnDeclPat3 content || mHead fnDeclPat4 content

/-- `^[\s]*(?:export\s+)?class\s+\w+` (anchored). -/
def classDeclPat : M :=
  mSeq (mStar jsWs)
    (mSeq (mOpt (mSeq (mStr (str "export")) (mPlus jsWs)))
      (mSeq (mStr (str "class")) (mSeq (mPlus jsWs) (mPlus isWordChar))))

/-- The group of `/class\s+(\w+)/` tried at the current position: `class`,
one or more whitespace characters, then a maximal word run. -/
def classNameAt (s : Str) : Option Str :=
  if (str "class").isPrefixOf s then
    let pw := (s.drop 5).span jsWs
    if pw.1.isEmpty then none
    else
      let pn := pw.2.span isWordChar
      if pn.1.isEmpty then none else some pn.1
  else none

/-- Leftmost match of `/class\s+(\w+)/`. -/
def classNameScan : Str → Option Str
  | [] => none
  | c :: cs =>
    match classNameAt (c :: cs) with
    | some n => some n
    | none => classNameScan cs

/-- `content.match(/class\s+(\w+)/)?.[1] || 'Unknown'`. -/
def extractClassName (s : Str) : Str := (classNameScan s).getD (str "Unknown")

/-- `^\s*[\*\/]` (anchored): leading whitespace then `*` or `/`. -/
def leadingCommentChar (s : Str) : Bool :=
  mHead (mSeq (mStar jsWs) (mCls (fun c => c = '*' || c = '/'))) s

/-- The downward scan of `CodeAnalyzer.hasJSDocAbove` over an explicit list
of candidate indices (a line containing `*/` succeeds; a non-blank line
that does not begin with a comment character breaks the scan). -/
def hasJSDocAboveGo (lines : List LineChange) : List Nat → Bool
  | [] => false
  | i :: rest =>
    match lines.get? i with
    | none => false
    | some l =>
      if includesS (str "*/") l.content then true
      else if !(jsTrim l.content).isEmpty && !leadingCommentChar l.content then false
      else hasJSDocAboveGo lines rest

/-- `CodeAnalyzer.hasJSDocAbove`: scan indices `idx-1` down to
`max 0 (idx-5)`. -/
def hasJSDocAbove (lines : List LineChange) (idx : Nat) : Bool :=
  if idx = 0 then false
  else
    hasJSDocAboveGo lines
      ((List.range 5).filterMap (fun j => if j + 1 ≤ idx then some (idx - (j + 1)) else none))

/-- The second and third alternatives of the function-name regex at the
current position: a word run followed by optional whitespace and `(`
(`(\w+)\s*\(`) or `=` (`(\w+)\s*=`). -/
def funcNameAlt (s : Str) : Option Str :=
  let pn := s.span isWordChar
  if pn.1.isEmpty then none
  else
    match (pn.2.span jsWs).2 with
    | '(' :: _ => some pn.1
    | '=' :: _ => some pn.1
    | _ => none

/-- The function-name regex `(?:function\s+(\w+)|(\w+)\s*\(|(\w+)\s*=)`
tried at the current position, alternatives in source order. -/
def funcNameAt (s : Str) : Option Str :=
  if (str "function").isPrefixOf s then
    let pw := (s.drop 8).span jsWs
    if pw.1.isEmpty then funcNameAlt s
    else
      let pn := pw.2.span isWordChar
      if pn.1.isEmpty then funcNameAlt s else some pn.1
  else funcNameAlt s

/-- Leftmost match of `/(?:function\s+(\w+)|(\w+)\s*\(|(\w+)\s*=)/`. -/
def funcNameScan : Str → Option Str
  | [] => none
  | c :: cs =>
    match funcNameAt (c :: cs) with
    | some n => some n
    | none => funcNameScan cs

/-- The group of `/\(([^)]*)\)/`: the text between the first `(` and the
first `)` after it. -/
def paramsGroup (s : Str) : Option Str :=
  match (s.span (fun c => c ≠ '(')).2 with
  | '(' :: r =>
    let q := r.span (fun c => c ≠ ')')
    match q.2 with
    | ')' :: _ => some q.1
    | _ => none
  | _ => none

/-- `p.trim().split(/\s+/)[0].replace(/[=:].*/, '')`. -/
def paramToken (p : Str) : Str :=
  ((jsTrim p).takeWhile (fun c => !jsWs c)).takeWhile (fun c => c ≠ '=' && c ≠ ':')

/-- `CodeAnalyzer.extractFunctionInfo`. -/
def extractFunctionInfo (content : Str) : FunctionInfo :=
  { name := (funcNameScan content).getD (str "anonymous")
    params :=
      match paramsGroup content with
      | some g => if g.isEmpty then [] else (g.splitOn ',').map paramToken
      | none => []
    hasReturn := includesS (str "return") content || includesS (str "=>") content }

/-- `CodeAnalyzer.generateJSDocSuggestion`. -/
def generateJSDocSuggestion (info : FunctionInfo) : Str :=
  (info.params.foldl
    (fun jsdoc param =>
      if !(jsTrim param).isEmpty then
        jsdoc ++ str " * @param \x7b*\x7d " ++ jsTrim param ++ str " - Description\n"
      else jsdoc)
    (str "/**\n * Description of " ++ info.name ++ str "\n")) ++
  (if info.hasReturn then str " * @returns \x7b*\x7d Description\n" else []) ++
  str " */"

/-- The accumulation loop of `CodeAnalyzer.extractJSDocBlock` (stops after
the first line containing `*/`). -/
def jsDocBlockGo : List LineChange → Str
  | [] => []
  | l :: rest =>
    if includesS (str "*/") l.content then l.content ++ ['\n']
    else l.content ++ ['\n'] ++ jsDocBlockGo rest

/-- `CodeAnalyzer.extractJSDocBlock`. -/
def extractJSDocBlock (lines : List LineChange) (startIndex : Nat) : Str :=
  jsDocBlockGo (lines.drop startIndex)

/-- The bounded scan of `CodeAnalyzer.findNextFunction` (at most nine lines
after the documentation block's first line). -/
def findNextFnGo : List LineChange → Nat → Option LineChange
  | _, 0 => none
  | [], _ => none
  | l :: rest, fuel + 1 =>
    if isFunctionDeclaration l.content then some l else findNextFnGo rest fuel

/-- `CodeAnalyzer.findNextFunction`. -/
def findNextFunction (lines : List LineChange) (startIndex : Nat) : Option LineChange :=
  findNextFnGo (lines.drop (startIndex + 1)) 9

/-- `CodeAnalyzer.validateJSDoc` (the parenthesisation of the source's
`if` condition is `(param.trim() && !includes('@param')) || !includes(param)`). -/
def validateJSDoc (jsDocBlock : Str) (info : FunctionInfo) : List Str :=
  (info.params.foldl
    (fun issues param =>
      if (!(jsTrim param).isEmpty && !includesS (str "@param") jsDocBlock) ||
          !includesS param jsDocBlock then
        issues ++ [str "Missing @param for '" ++ param ++ str "'"]
      else issues) []) ++
  (if info.hasReturn && !includesS (str "@returns") jsDocBlock &&
      !includesS (str "@return") jsDocBlock then
    [str "Missing @returns documentation"]
  else [])

/-! ### The detector battery (`CodeAnalyzer`) -/

/-- `fileChange.changes.filter(c => c.type === 'addition')`. -/
def addedLines (fc : FileChange) : List LineChange :=
  fc.changes.filter (fun c => c.type = LineType.addition)

/-- `CodeAnalyzer.createIssue` (fills every optional field, including the
inferred language). -/
def createIssue (severity : Severity) (title description : Str) (file : Str)
    (line : Nat) (suggestion : Str) (fc : FileChange) (contextLines : Nat) :
    ReviewIssue :=
  { severity
    title
    description
    file
    line := some line
    suggestion := some suggestion
    codeSnippet := some (getCodeContext fc line contextLines)
    language := some (getLanguageFromExtension (getFileExtension file)) }

/-- `CodeAnalyzer.analyzeCodeQuality`: long lines and TODO/FIXME markers. -/
def analyzeCodeQuality (fc : FileChange) : List ReviewIssue :=
  (addedLines fc).flatMap (fun line =>
    (if line.content.length > 120 then
      [createIssue .minor (str "Long line detected")
        (str "Line is " ++ (Nat.repr line.content.length).toList ++ str " characters long")
        fc.fileName line.lineNumber
        (str "Break into multiple lines for better readability") fc 3]
    else []) ++
    (if matchTodoFixme line.content then
      [createIssue .info (str "TODO/FIXME comment found")
        (str "Unresolved TODO or FIXME comment") fc.fileName line.lineNumber
        (str "Address the TODO or create a proper issue") fc 2]
    else []))

/-- `CodeAnalyzer.analyzeSecurityIssues`: hardcoded secrets, with the
quoted literals of the snippet masked. -/
def analyzeSecurityIssues (fc : FileChange) : List ReviewIssue :=
  (addedLines fc).flatMap (fun line =>
    if matchSecret line.content then
      [{ severity := .critical
         title := str "Potential hardcoded secret"
         description := str "Possible hardcoded credential or secret"
         file := fc.fileName
         line := some line.lineNumber
         suggestion := some (str "Move to environment variables")
         codeSnippet := some (maskQuotes (getCodeContext fc line.lineNumber 2))
         language := none }]
    else [])

/-- `CodeAnalyzer.analyzeBestPractices`: loose equality, restricted to
`.ts`/`.js` files. -/
def analyzeBestPractices (fc : FileChange) : List ReviewIssue :=
  if getFileExtension fc.fileName = str ".ts" ∨ getFileExtension fc.fileName = str ".js" then
    (addedLines fc).flatMap (fun line =>
      if matchLooseEq line.content then
        [{ severity := .minor
           title := str "Use strict equality"
           description := str "Using loose equality instead of strict"
           file := fc.fileName
           line := some line.lineNumber
           suggestion := some (str "Use === or !== for strict comparison")
           codeSnippet := some (getCodeContext fc line.lineNumber 2)
           language := none }]
      else [])
  else []

/-- The issues `analyzeLogicalBugs` pushes for one added line, in source
order (null access, array access, infinite loop, assignment in
conditional, unreachable code, type coercion). -/
def logicalBugsLine (fc : FileChange) (fileExt : Str) (line : LineChange) :
    List ReviewIssue :=
  (if matchWordDotWord line.content && !matchOptChain line.content then
    (if !hasNullCheckNearby fc line.lineNumber && !matchGuard line.content then
      [{ severity := .major
         title := str "Potential null/undefined access"
         description := str "Object property access without null checking"
         file := fc.fileName
         line := some line.lineNumber
         suggestion := some (str "Add null check or use optional chaining (?.)")
         codeSnippet := some (getCodeContext fc line.lineNumber 3)
         language := none }]
    else [])
  else []) ++
  (if arrayAccessCond line.content then
    [{ severity := .minor
       title := str "Array access without bounds check"
       description := str "Direct array indexing without length validation"
       file := fc.fileName
       line := some line.lineNumber
       suggestion := some (str "Check array length before accessing elements")
       codeSnippet := some (getCodeContext fc line.lineNumber 2)
       language := none }]
  else []) ++
  (if matchInfiniteLoop line.content then
    [{ severity := .major
       title := str "Potential infinite loop"
       description := str "Loop condition that may never become false"
       file := fc.fileName
       line := some line.lineNumber
       suggestion := some (str "Add proper exit condition or break statement")
       codeSnippet := some (getCodeContext fc line.lineNumber 4)
       language := none }]
  else []) ++
  (if matchAssignInCond line.content then
    [{ severity := .major
       title := str "Assignment in conditional"
       description := str "Assignment (=) used instead of comparison (==, ===)"
       file := fc.fileName
       line := some line.lineNumber
       suggestion := some
         (str "Use comparison operator or wrap assignment in extra parentheses if intentional")
       codeSnippet := some (getCodeContext fc line.lineNumber 3)
       language := none }]
  else []) ++
  (if matchUnreachable line.content then
    [{ severity := .minor
       title := str "Potentially unreachable code"
       description := str "Code after return statement may be unreachable"
       file := fc.fileName
       line := some line.lineNumber
       suggestion := some (str "Remove unreachable code or restructure logic")
       codeSnippet := some (getCodeContext fc line.lineNumber 4)
       language := none }]
  else []) ++
  (if (fileExt = str ".js" ∨ fileExt = str ".ts") && matchCoercion line.content then
    [{ severity := .minor
       title := str "Potential type coercion"
       description :=
         str "String concatenation with + operator may cause unexpected type conversion"
       file := fc.fileName
       line := some line.lineNumber
       suggestion := some (str "Use template literals or explicit type conversion")
       codeSnippet := some (getCodeContext fc line.lineNumber 2)
       language := none }]
  else [])

/-- `CodeAnalyzer.analyzeLogicalBugs`. -/
def analyzeLogicalBugs (fc : FileChange) : List ReviewIssue :=
  (addedLines fc).flatMap (logicalBugsLine fc (getFileExtension fc.fileName))

/-- The issues `analyzeJSDocIssues` pushes for the added line at index `i`,
in source order (missing function JSDoc, missing class JSDoc, incomplete
JSDoc). -/
def jsdocAtIndex (fc : FileChange) (added : List LineChange) (i : Nat) :
    List ReviewIssue :=
  match added.get? i with
  | none => []
  | some line =>
    (if isFunctionDeclaration line.content && !hasJSDocAbove added i then
      let info := extractFunctionInfo line.content
      [{ severity := .minor
         title := str "Missing JSDoc documentation"
         description := str "Function '" ++ info.name ++ str "' lacks JSDoc documentation"
         file := fc.fileName
         line := some line.lineNumber
         suggestion := some (generateJSDocSuggestion info)
         codeSnippet := some (getCodeContext fc line.lineNumber 3)
         language := none }]
    else []) ++
    (if mHead classDeclPat line.content && !hasJSDocAbove added i then
      let className := extractClassName line.content
      [{ severity := .minor
         title := str "Missing class JSDoc"
         description := str "Class '" ++ className ++ str "' lacks JSDoc documentation"
         file := fc.fileName
         line := some line.lineNumber
         suggestion := some
           (str "Add JSDoc:\n/**\n * Description of " ++ className ++ str " class\n */")
         codeSnippet := some (getCodeContext fc line.lineNumber 3)
         language := none }]
    else []) ++
    (if includesS (str "/**") line.content then
      match findNextFunction added i with
      | some nextLine =>
        let jsDocBlock := extractJSDocBlock added i
        let info := extractFunctionInfo nextLine.content
        (validateJSDoc jsDocBlock info).map (fun issue =>
          { severity := .minor
            title := str "Incomplete JSDoc"
            description := issue
            file := fc.fileName
            line := some line.lineNumber
            suggestion := some (str "Add missing JSDoc tags (@param, @returns, @throws)")
            codeSnippet := some (jsDocBlock.take 100 ++ str "...")
            language := none })
      | none => []
    else [])

/-- `CodeAnalyzer.analyzeJSDocIssues` (JavaScript/TypeScript files only). -/
def analyzeJSDocIssues (fc : FileChange) : List ReviewIssue :=
  let fileExt := getFileExtension fc.fileName
  if fileExt ≠ str ".js" ∧ fileExt ≠ str ".ts" ∧ fileExt ≠ str ".jsx" ∧
      fileExt ≠ str ".tsx" then []
  else
    let added := addedLines fc
    (List.range added.length).flatMap (jsdocAtIndex fc added)

/-- The issues `analyzePerformanceIssues` pushes for one added line, in
source order. -/
def performanceLine (fc : FileChange) (fileExt : Str) (line : LineChange) :
    List ReviewIssue :=
  (if matchLoopLength line.content then
    [{ severity := .minor
       title := str "Inefficient loop condition"
       description := str "Array length accessed in every loop iteration"
       file := fc.fileName
       line := some line.lineNumber
       suggestion := some (str "Cache array length in a variable before the loop")
       codeSnippet := some (getCodeContext fc line.lineNumber 3)
       language := none }]
  else []) ++
  (if matchFor line.content && hasNestedLoop fc line.lineNumber then
    [{ severity := .minor
       title := str "Nested loop detected"
       description := str "Nested loops can have O(n²) complexity"
       file := fc.fileName
       line := some line.lineNumber
       suggestion := some
         (str "Consider optimizing with better data structures or algorithms")
       codeSnippet := some (getCodeContext fc line.lineNumber 4)
       language := none }]
  else []) ++
  (if matchSyncFs line.content then
    [{ severity := .major
       title := str "Synchronous file operation"
       description := str "Synchronous operations block the event loop"
       file := fc.fileName
       line := some line.lineNumber
       suggestion := some (str "Use asynchronous alternatives with async/await")
       codeSnippet := some (getCodeContext fc line.lineNumber 3)
       language := none }]
  else []) ++
  (if matchConcat line.content && (fileExt = str ".js" ∨ fileExt = str ".ts") then
    [{ severity := .minor
       title := str "Inefficient string concatenation"
       description := str "String concatenation in loops can be inefficient"
       file := fc.fileName
       line := some line.lineNumber
       suggestion := some
         (str "Use array.join() or template literals for better performance")
       codeSnippet := some (getCodeContext fc line.lineNumber 3)
       language := none }]
  else []) ++
  (if matchFunctionBrace line.content && hasExpensiveOperation line.content then
    [{ severity := .info
       title := str "Consider memoization"
       description := str "Function with expensive operations could benefit from memoization"
       file := fc.fileName
       line := some line.lineNumber
       suggestion := some
         (str "Consider caching results for repeated calls with same parameters")
       codeSnippet := some (getCodeContext fc line.lineNumber 4)
       language := none }]
  else [])

/-- `CodeAnalyzer.analyzePerformanceIssues`. -/
def analyzePerformanceIssues (fc : FileChange) : List ReviewIssue :=
  (addedLines fc).flatMap (performanceLine fc (getFileExtension fc.fileName))

/-- `CodeAnalyzer.analyzeFileChange`: the six detector families, run in the
fixed source order and concatenated.  The `prompt` parameter is threaded
through untouched, exactly as in the source. -/
def analyzeFileChange (fc : FileChange) (_prompt : Str) : List ReviewIssue :=
  analyzeCodeQuality fc ++ analyzeSecurityIssues fc ++ analyzeBestPractices fc ++
    analyzeLogicalBugs fc ++ analyzeJSDocIssues fc ++ analyzePerformanceIssues fc

/-- `CodeAnalyzer.generateSummary` (the `prompt` parameter is unused by the
source body). -/
def generateSummary (files : List FileChange) (issues : List ReviewIssue)
    (_prompt : Str) : Str :=
  let totalFiles := files.length
  let totalAdditions := files.foldl (fun sum f => sum + f.additions) 0
  let totalDeletions := files.foldl (fun sum f => sum + f.deletions) 0
  let criticalIssues := (issues.filter (fun i => i.severity = Severity.critical)).length
  let majorIssues := (issues.filter (fun i => i.severity = Severity.major)).length
  let base :=
    str "This code review analyzed " ++ (Nat.repr totalFiles).toList ++
      str " files with " ++ (Nat.repr totalAdditions).toList ++
      str " additions and " ++ (Nat.repr totalDeletions).toList ++ str " deletions.\n\n"
  if issues.length = 0 then
    base ++ str "✅ **Excellent work!** No significant issues were found."
  else
    base ++ str "Found " ++ (Nat.repr issues.length).toList ++ str " issues:\n" ++
      (if criticalIssues > 0 then
        str "- 🚨 " ++ (Nat.repr criticalIssues).toList ++ str " critical issues\n"
      else []) ++
      (if majorIssues > 0 then
        str "- ⚠️ " ++ (Nat.repr majorIssues).toList ++ str " major issues\n"
      else [])

/-! ### ReviewOrchestrator (`CodeReviewer.analyzeDiff`) -/

/-- The text of the `comprehensive` template of `review-prompts.ts`.  The
pipeline records it without ever inspecting it (`analyzeFileChange` and
`generateSummary` ignore their prompt argument), so its exact wording is
irrelevant to every theorem below; it is kept as an abstract marker
string. -/
def comprehensiveTemplate : Str := str "Perform a comprehensive code review"

/-- `reviewPrompt || this.promptManager.getTemplate('comprehensive')`:
JavaScript `||` falls through on `undefined` and on the empty string. -/
def resolvePrompt (opts : ReviewOptions) : Str :=
  match opts.reviewPrompt with
  | some p => if p.isEmpty then comprehensiveTemplate else p
  | none => comprehensiveTemplate

/-- The per-file issue accumulation loop of `analyzeDiff`. -/
def collectIssues (files : List FileChange) (prompt : Str) : List ReviewIssue :=
  files.flatMap (fun fc => analyzeFileChange fc prompt)

/-- `CodeReviewer.analyzeDiff`: parse → filter → detect → summarize → rank.
The summary is generated from the issue list before the final sort (the
source sorts in place while building the result object); it depends only
on severity counts, so the order is immaterial there. -/
def analyzeDiff (diff : Str) (opts : ReviewOptions) : ReviewResult :=
  let parsedDiff := parseDiff diff
  let filteredFiles := filterFiles parsedDiff opts.fileExtensions opts.excludePatterns
  let prompt := resolvePrompt opts
  let issues := collectIssues filteredFiles prompt
  { filesChanged := filteredFiles.length
    linesAdded := filteredFiles.foldl (fun sum f => sum + f.additions) 0
    linesRemoved := filteredFiles.foldl (fun sum f => sum + f.deletions) 0
    issues := sortIssues issues
    summary := some (generateSummary filteredFiles issues prompt) }

/-! ### Emission-oriented restatement of the block scan

`runEmit` follows exactly the branch cascade of `lineStep` but returns the
emitted changes and the final counters directly, without threading the
accumulated state; the bridge theorem `foldl_lineStep_eq_runEmit` below
identifies the two formulations.  All numbering facts about the parser are
proved against `runEmit`. -/

/-- The changes emitted and the final `(old, new)` counters of a scan of
`lines` starting from counters `(o, n)`. -/
def runEmit : List Str → Nat → Nat → List LineChange × Nat × Nat
  | [], o, n => ([], o, n)
  | line :: rest, o, n =>
    match classifyLine line with
    | .hunkHeader (some hdr) => runEmit rest hdr.1 hdr.2
    | .hunkHeader none => runEmit rest o n
    | .add =>
      let r := runEmit rest o (n + 1)
      (⟨.addition, n, line.drop 1⟩ :: r.1, r.2)
    | .del =>
      let r := runEmit rest (o + 1) n
      (⟨.deletion, o, line.drop 1⟩ :: r.1, r.2)
    | .ctx =>
      let r := runEmit rest (o + 1) (n + 1)
      (⟨.context, o, if startsWithS " " line then line.drop 1 else line⟩ :: r.1, r.2)
    | .skip => runEmit rest o n

/-- Tests whether an emitted change advances the new-file counter
(additions and context lines do). -/
def advancesNew (c : LineChange) : Bool :=
  c.type = LineType.addition ∨ c.type = LineType.context

/-- Tests whether an emitted change advances the old-file counter
(deletions and context lines do). -/
def advancesOld (c : LineChange) : Bool :=
  c.type = LineType.deletion ∨ c.type = LineType.context

/-! ### Spec-modelled comparison definitions

The two definitions in this section are deliberately written after the
words of the specification/claims rather than after the source; each is
used only to compare the source behaviour against the claimed one. -/

/-- Modelled from the spec (claim C1): identical to `lineStep` except that a
context line is tagged with the *new*-file counter, as the sentence
"`lineNumber`: the line's number in the *new* file for addition/context"
demands. -/
def specContextNewLineStep (s : ParseState) (line : Str) : ParseState :=
  match classifyLine line with
  | .hunkHeader (some hdr) =>
    { s with currentLineOld := hdr.1, currentLineNew := hdr.2 }
  | .hunkHeader none => s
  | .add =>
    { s with
      additions := s.additions + 1
      changes := s.changes ++
        [{ type := .addition, lineNumber := s.currentLineNew, content := line.drop 1 }]
      currentLineNew := s.currentLineNew + 1 }
  | .del =>
    { s with
      deletions := s.deletions + 1
      changes := s.changes ++
        [{ type := .deletion, lineNumber := s.currentLineOld, content := line.drop 1 }]
      currentLineOld := s.currentLineOld + 1 }
  | .ctx =>
    { s with
      changes := s.changes ++
        [{ type := .context, lineNumber := s.currentLineNew,
           content := if startsWithS " " line then line.drop 1 else line }]
      currentLineOld := s.currentLineOld + 1
      currentLineNew := s.currentLineNew + 1 }
  | .skip => s

/-- Modelled from the spec (claim C1): `parseBlock` with the spec's
context-line numbering. -/
def specContextNewParseBlock (lines : List Str) : Option FileChange :=
  match matchHeaderRest (lines.headD []) with
  | none => none
  | some names =>
    let st := lines.foldl specContextNewLineStep ⟨0, 0, [], 0, 0⟩
    some
      { fileName := names.2
        oldFileName := names.1
        isDeleted := lines.any (startsWithS "deleted file mode")
        isNewFile := lines.any (startsWithS "new file mode")
        additions := st.additions
        deletions := st.deletions
        changes := st.changes
        rawDiff := dgTok ++ List.intercalate (str "\n") lines }

/-- Modelled from the spec (claim C1): `parseDiff` with the spec's
context-line numbering. -/
def specContextNewParseDiff (diff : Str) : List FileChange :=
  (splitBlocks (splitLines diff)).foldl
    (fun acc b => (specContextNewParseBlock b).elim acc (fun fc => acc ++ [fc])) []

/-- Modelled from the spec (claim C4): "a `return` followed by further
non-closing-brace content" — `return`, then anything, then a character
other than `}`. -/
def specCodeAfterReturn (s : Str) : Bool :=
  mSearch
    (mSeq (mStr (str "return"))
      (mSeq (mStar (fun _ => true)) (mCls (fun c => c ≠ '\x7d')))) s

/-- Modelled from the claim (C6): "the N closest recorded changes of the
file strictly before the flagged line by line number" — the last `N`
entries of the ascending-sorted changes below the target, with no distance
bound. -/
def claimClosestBefore (fc : FileChange) (target n : Nat) : List LineChange :=
  ((((sortedChanges fc).filter (fun l => decide (l.lineNumber < target))).reverse.take n)).reverse

/-! ### Concrete fixtures for counterexamples and witnesses -/

/-- A file change consisting of added lines only (fixture builder). -/
def mkAddedFile (name : String) (entries : List (Nat × String)) : FileChange :=
  { fileName := str name
    oldFileName := str name
    isDeleted := false
    isNewFile := false
    additions := entries.length
    deletions := 0
    changes := entries.map (fun e => ⟨.addition, e.1, str e.2⟩)
    rawDiff := [] }

/-- A bare issue carrying only a severity and a title (fixture builder). -/
def exIssue (sev : Severity) (t : String) : ReviewIssue :=
  { severity := sev
    title := str t
    description := []
    file := []
    line := none
    suggestion := none
    codeSnippet := none
    language := none }

/-- C1 fixture: one file, one hunk whose old and new start offsets differ,
one context line. -/
def dC1 : Str := str "diff --git a/f.ts b/f.ts\n@@ -1,1 +5,1 @@\n hello\n"

/-- A well-formed one-file diff used by several witnesses. -/
def dEx : Str :=
  str "diff --git a/f.ts b/f.ts\n@@ -1,2 +1,3 @@\n ctx\n+add\n-del\n"

/-- C8 fixture: a block whose header has no `a/... b/...` part. -/
def dC8 : Str := str "diff --git malformed\n+x\n"

/-- C4 fixture: an added line with code after a `return`. -/
def fcC4 : FileChange := mkAddedFile "a.ts" [(1, "return x; cleanup();")]

/-- C5 fixture: an added line with a numeric bracket index and a `.length`
check on the same line. -/
def fcC5 : FileChange := mkAddedFile "a.ts" [(1, "const a = arr[0].length;")]

/-- C5 witness fixture: a bracket index with a loop variable, guarded by a
`.length` comparison. -/
def lineC5w : Str := str "if (i < arr.length) y = arr[i];"

/-- C4 witness fixture: a diff whose single added line triggers the
assignment-in-conditional detector. -/
def dC4w : Str := str "diff --git a/g.ts b/g.ts\n@@ -1,0 +1,1 @@\n+if (x = 5) \x7b\n"

/-- C6 fixture: recorded changes at lines 3, 9 and 10. -/
def fcC6 : FileChange := mkAddedFile "a.ts" [(3, "a"), (9, "b"), (10, "c")]

/-- C2 fixture: severities `[minor, critical, major, info, critical]` with
distinguishable titles. -/
def exIssuesC2 : List ReviewIssue :=
  [exIssue .minor "i1", exIssue .critical "i2", exIssue .major "i3",
    exIssue .info "i4", exIssue .critical "i5"]

/-- C7 fixture: three file changes with contrasting names. -/
def filesC7 : List FileChange :=
  [mkAddedFile "src/App.TS" [], mkAddedFile "src/app.test.ts" [],
    mkAddedFile "readme.md" []]

/-! ## Theorems

General lemmas about the stable-sort model, then one theorem (plus
counterexamples and witnesses where applicable) per claim. -/

theorem jsSortInsert_perm (c : α → α → Int) (x : α) (l : List α) :
    (jsSortInsert c x l).Perm (x :: l) := by
  induction l with
  | nil => simp [jsSortInsert]
  | cons y ys ih =>
    simp only [jsSortInsert]
    by_cases h : c y x < 0
    · simp only [if_pos h]
      exact (ih.cons y).trans (List.Perm.swap x y ys)
    · simp [if_neg h]

theorem jsSort_perm (c : α → α → Int) (l : List α) : (jsSort c l).Perm l := by
  induction l with
  | nil => simp [jsSort]
  | cons x xs ih =>
    exact (jsSortInsert_perm c x (jsSort c xs)).trans (ih.cons x)

theorem jsSortInsert_pairwise {R : α → α → Prop} {c : α → α → Int}
    (htrans : ∀ a b d, R a b → R b d → R a d)
    (h1 : ∀ a b, c b a < 0 → R b a) (h2 : ∀ a b, ¬c b a < 0 → R a b)
    (x : α) (l : List α) (hl : l.Pairwise R) :
    (jsSortInsert c x l).Pairwise R := by
  induction l with
  | nil => simp [jsSortInsert]
  | cons y ys ih =>
    rcases List.pairwise_cons.mp hl with ⟨hy, hys⟩
    by_cases h : c y x < 0
    · simp only [jsSortInsert, if_pos h]
      refine List.pairwise_cons.mpr ⟨?_, ih hys⟩
      intro z hz
      rcases List.mem_cons.mp ((jsSortInsert_perm c x ys).mem_iff.mp hz) with rfl | hzys
      · exact h1 _ _ h
      · exact hy z hzys
    · simp only [jsSortInsert, if_neg h]
      refine List.pairwise_cons.mpr ⟨?_, hl⟩
      intro z hz
      rcases List.mem_cons.mp hz with rfl | hzys
      · exact h2 _ _ h
      · exact htrans _ _ _ (h2 _ _ h) (hy z hzys)

theorem jsSort_pairwise {R : α → α → Prop} {c : α → α → Int}
    (htrans : ∀ a b d, R a b → R b d → R a d)
    (h1 : ∀ a b, c b a < 0 → R b a) (h2 : ∀ a b, ¬c b a < 0 → R a b)
    (l : List α) : (jsSort c l).Pairwise R := by
  induction l with
  | nil => simp [jsSort]
  | cons x xs ih => exact jsSortInsert_pairwise htrans h1 h2 x (jsSort c xs) ih

theorem filter_jsSortInsert_of_neg (c : α → α → Int) (p : α → Bool) (x : α)
    (l : List α) (hx : p x = false) :
    (jsSortInsert c x l).filter p = l.filter p := by
  induction l with
  | nil => simp [jsSortInsert, hx]
  | cons y ys ih =>
    by_cases h : c y x < 0
    · simp [jsSortInsert, if_pos h, List.filter_cons, ih]
    · simp [jsSortInsert, if_neg h, List.filter_cons, hx]

theorem filter_jsSortInsert_of_pos (c : α → α → Int) (p : α → Bool) (x : α)
    (l : List α) (hx : p x = true)
    (hno : ∀ y ∈ l, c y x < 0 → p y = false) :
    (jsSortInsert c x l).filter p = x :: l.filter p := by
  induction l with
  | nil => simp [jsSortInsert, hx]
  | cons y ys ih =>
    by_cases h : c y x < 0
    · have hpy : p y = false := hno y (List.mem_cons_self y ys) h
      simp only [jsSortInsert, if_pos h, List.filter_cons, hpy, Bool.false_eq_true,
        if_false]
      exact ih (fun z hz => hno z (List.mem_cons_of_mem y hz))
    · simp [jsSortInsert, if_neg h, List.filter_cons, hx]

theorem filter_jsSort (c : α → α → Int) (p : α → Bool)
    (hcomp : ∀ x y, p x = true → p y = true → ¬c y x < 0) :
    ∀ l : List α, (jsSort c l).filter p = l.filter p := by
  intro l
  induction l with
  | nil => simp [jsSort]
  | cons x xs ih =>
    show (jsSortInsert c x (jsSort c xs)).filter p = _
    by_cases hx : p x = true
    · rw [filter_jsSortInsert_of_pos c p x _ hx ?_, ih]
      · simp [List.filter_cons, hx]
      · intro y hy hlt
        by_contra hpy
        exact hcomp x y hx (Bool.of_not_eq_false hpy) hlt
    · have hx' : p x = false := Bool.eq_false_iff.mpr hx
      rw [filter_jsSortInsert_of_neg c p x _ hx', ih]
      simp [List.filter_cons, hx']

/-- C9.  The detection pipeline is independent of the review prompt: for
every `FileChange` and any two prompt strings, `analyzeFileChange` returns
the same issue sequence, and `generateSummary` returns the same summary for
the same files and issues under any two prompts. -/
theorem C9_prompt_independence :
    (∀ (fc : FileChange) (p₁ p₂ : Str), analyzeFileChange fc p₁ = analyzeFileChange fc p₂) ∧
    (∀ (files : List FileChange) (issues : List ReviewIssue) (p₁ p₂ : Str),
      generateSummary files issues p₁ = generateSummary files issues p₂) :=
  ⟨fun _ _ _ => rfl, fun _ _ _ _ => rfl⟩

/-- C7.  The file filter returns exactly the subsequence of input files
that pass the case-insensitive extension suffix test and avoid every
case-insensitive exclude-pattern substring; an absent or empty list imposes
no constraint, and the order of survivors is preserved (the result is a
sublist of the input). -/
theorem C7_filter_conjunction :
    (∀ (files : List FileChange) (exts pats : Option (List Str)),
      (filterFiles files exts pats).Sublist files) ∧
    (∀ (files : List FileChange) (exts pats : Option (List Str)) (f : FileChange),
      f ∈ filterFiles files exts pats ↔
        f ∈ files ∧ extensionPass exts f = true ∧ excludePass pats f = true) ∧
    (∀ f : FileChange,
      extensionPass none f = true ∧ extensionPass (some []) f = true ∧
        excludePass none f = true ∧ excludePass (some []) f = true) := by
  refine ⟨fun files exts pats => List.filter_sublist files, ?_, ?_⟩
  · intro files exts pats f
    simp [filterFiles, List.mem_filter, Bool.and_eq_true, and_assoc]
  · intro f
    refine ⟨rfl, ?_, rfl, ?_⟩ <;> simp [extensionPass, excludePass]

/-- C7 witness: the filter applied to a concrete file list with the
`[".ts"]` allow-list and the `["test"]` exclude list. -/
theorem C7_filter_conjunction_witness :
    (filterFiles filesC7 (some [str ".ts"]) (some [str "test"])).Sublist filesC7 ∧
    (mkAddedFile "src/App.TS" [] ∈
        filterFiles filesC7 (some [str ".ts"]) (some [str "test"]) ↔
      mkAddedFile "src/App.TS" [] ∈ filesC7 ∧
        extensionPass (some [str ".ts"]) (mkAddedFile "src/App.TS" []) = true ∧
        excludePass (some [str "test"]) (mkAddedFile "src/App.TS" []) = true) ∧
    filterFiles filesC7 (some [str ".ts"]) (some [str "test"]) =
      [mkAddedFile "src/App.TS" []] :=
  ⟨C7_filter_conjunction.1 filesC7 (some [str ".ts"]) (some [str "test"]),
    C7_filter_conjunction.2.1 filesC7 (some [str ".ts"]) (some [str "test"]) _,
    by decide⟩

theorem foldl_pushParsed_eq_filterMap :
    ∀ (l : List (List Str)) (acc : List FileChange),
      l.foldl pushParsed acc = acc ++ l.filterMap parseBlock := by
  intro l
  induction l with
  | nil => intro acc; simp
  | cons a l ih =>
    intro acc
    rcases hfa : parseBlock a with _ | b
    · simpa [List.foldl_cons, pushParsed, hfa, List.filterMap_cons] using ih acc
    · simp [List.foldl_cons, pushParsed, hfa, List.filterMap_cons, ih (acc ++ [b])]

/-- C8.  Parsing is total and a per-file block whose header line does not
match the `a/<old-path> b/<new-path>` pattern contributes no `FileChange`:
`parseDiff` is the `filterMap` of the block parser over the blocks, the
block parser returns `none` exactly on a failed header match, and the
concrete malformed diff `dC8` parses to the empty list (in the embedding
every function is total, so no error can be raised by construction). -/
theorem C8_malformed_header_dropped :
    (∀ diff : Str,
      parseDiff diff = (splitBlocks (splitLines diff)).filterMap parseBlock) ∧
    (∀ b : List Str, matchHeaderRest (b.headD []) = none → parseBlock b = none) ∧
    parseDiff dC8 = [] := by
  refine ⟨fun diff => ?_, fun b h => ?_, by decide⟩
  · have h := foldl_pushParsed_eq_filterMap (splitBlocks (splitLines diff)) []
    rw [List.nil_append] at h
    exact h
  · simp only [parseBlock]
    rw [h]

/-- C8 witness: the malformed block of `dC8` has a non-matching header and
is dropped. -/
theorem C8_malformed_header_dropped_witness :
    matchHeaderRest (str " malformed") = none ∧
    parseBlock [str " malformed", str "+x", []] = none :=
  ⟨by decide, C8_malformed_header_dropped.2.1 [str " malformed", str "+x", []] (by decide)⟩

theorem foldl_lineStep_eq_runEmit :
    ∀ (lines : List Str) (s : ParseState),
      lines.foldl lineStep s =
        ⟨s.additions +
            (runEmit lines s.currentLineOld s.currentLineNew).1.countP
              (fun c => decide (c.type = LineType.addition)),
          s.deletions +
            (runEmit lines s.currentLineOld s.currentLineNew).1.countP
              (fun c => decide (c.type = LineType.deletion)),
          s.changes ++ (runEmit lines s.currentLineOld s.currentLineNew).1,
          (runEmit lines s.currentLineOld s.currentLineNew).2.1,
          (runEmit lines s.currentLineOld s.currentLineNew).2.2⟩ := by
  intro lines
  induction lines with
  | nil => intro s; simp [runEmit]
  | cons line rest ih =>
    intro s
    simp only [List.foldl_cons]
    rcases hc : classifyLine line with hdr? | _ | _ | _ | _
    · rcases hdr? with _ | hdr
      · rw [show lineStep s line = s by simp [lineStep, hc], ih s]
        simp [runEmit, hc]
      · rw [show lineStep s line =
            { s with currentLineOld := hdr.1, currentLineNew := hdr.2 } by
          simp [lineStep, hc], ih]
        simp [runEmit, hc]
    · rw [show lineStep s line =
          { s with
            additions := s.additions + 1
            changes := s.changes ++
              [{ type := .addition, lineNumber := s.currentLineNew,
                 content := line.drop 1 }]
            currentLineNew := s.currentLineNew + 1 } by simp [lineStep, hc], ih]
      simp [runEmit, hc, List.countP_cons]
      omega
    · rw [show lineStep s line =
          { s with
            deletions := s.deletions + 1
            changes := s.changes ++
              [{ type := .deletion, lineNumber := s.currentLineOld,
                 content := line.drop 1 }]
            currentLineOld := s.currentLineOld + 1 } by simp [lineStep, hc], ih]
      simp [runEmit, hc, List.countP_cons]
      omega
    · rw [show lineStep s line =
          { s with
            changes := s.changes ++
              [{ type := .context, lineNumber := s.currentLineOld,
                 content := if startsWithS " " line then line.drop 1 else line }]
            currentLineOld := s.currentLineOld + 1
            currentLineNew := s.currentLineNew + 1 } by simp [lineStep, hc], ih]
      simp [runEmit, hc, List.countP_cons]
    · rw [show lineStep s line = s by simp [lineStep, hc], ih s]
      simp [runEmit, hc]

theorem classifyLine_hunkHeader {l : Str} {x : Option (Nat × Nat)}
    (h : classifyLine l = .hunkHeader x) : startsWithS "@@" l = true := by
  by_contra hn
  have hn' : startsWithS "@@" l = false := by simpa using hn
  simp only [classifyLine, hn', Bool.false_eq_true, if_false] at h
  split at h
  · exact LineKind.noConfusion h
  · split at h
    · exact LineKind.noConfusion h
    · split at h
      · exact LineKind.noConfusion h
      · exact LineKind.noConfusion h

/-- C3.  Every `FileChange` produced by the parser counts its additions and
deletions exactly: `additions` equals the number of `changes` entries of
type addition, and `deletions` the number of entries of type deletion. -/
theorem C3_addition_deletion_counts :
    ∀ (diff : Str) (fc : FileChange), fc ∈ parseDiff diff →
      fc.additions = fc.changes.countP (fun c => decide (c.type = LineType.addition)) ∧
      fc.deletions = fc.changes.countP (fun c => decide (c.type = LineType.deletion)) := by
  intro diff fc hmem
  have hpd := foldl_pushParsed_eq_filterMap (splitBlocks (splitLines diff)) []
  rw [List.nil_append] at hpd
  rw [parseDiff, hpd] at hmem
  rcases List.mem_filterMap.mp hmem with ⟨b, _, hparse⟩
  rw [parseBlock] at hparse
  rcases hh : matchHeaderRest (b.headD []) with _ | names
  · rw [hh] at hparse
    exact absurd hparse (by simp)
  · rw [hh] at hparse
    have hfc := Option.some.inj hparse
    rw [foldl_lineStep_eq_runEmit b ⟨0, 0, [], 0, 0⟩] at hfc
    subst hfc
    simp

/-- C3 witness: the parsed example diff `dEx` yields one file whose counts
match its change-type counts. -/
theorem C3_addition_deletion_counts_witness :
    (parseDiff dEx).headD
        ⟨[], [], false, false, 0, 0, [], []⟩ ∈ parseDiff dEx ∧
    ((parseDiff dEx).headD ⟨[], [], false, false, 0, 0, [], []⟩).additions =
      ((parseDiff dEx).headD ⟨[], [], false, false, 0, 0, [], []⟩).changes.countP
        (fun c => decide (c.type = LineType.addition)) :=
  ⟨by decide,
    (C3_addition_deletion_counts dEx
      ((parseDiff dEx).headD ⟨[], [], false, false, 0, 0, [], []⟩) (by decide)).1⟩

theorem runEmit_numbering :
    ∀ (lines : List Str), (∀ l ∈ lines, startsWithS "@@" l = false) →
      ∀ (o n i : Nat) (c : LineChange), (runEmit lines o n).1.get? i = some c →
        (c.type = LineType.addition →
          c.lineNumber = n + ((runEmit lines o n).1.take i).countP advancesNew) ∧
        (c.type = LineType.deletion →
          c.lineNumber = o + ((runEmit lines o n).1.take i).countP advancesOld) ∧
        (c.type = LineType.context →
          c.lineNumber = o + ((runEmit lines o n).1.take i).countP advancesOld) := by
  intro lines
  induction lines with
  | nil =>
    intro _ o n i c hget
    simp [runEmit] at hget
  | cons line rest ih =>
    intro hno o n i c hget
    have hline : startsWithS "@@" line = false := hno line (List.mem_cons_self line rest)
    have hrest : ∀ l ∈ rest, startsWithS "@@" l = false := fun l hl =>
      hno l (List.mem_cons_of_mem line hl)
    rcases hc : classifyLine line with x | _ | _ | _ | _
    · exact absurd (classifyLine_hunkHeader hc) (by simp [hline])
    · simp only [runEmit, hc] at hget ⊢
      rcases i with _ | i
      · simp only [List.get?_cons_zero, Option.some.injEq] at hget
        subst hget
        refine ⟨fun _ => by simp, fun ht => by simp at ht, fun ht => by simp at ht⟩
      · simp only [List.get?_cons_succ] at hget
        have h3 := ih hrest o (n + 1) i c hget
        refine ⟨fun ht => ?_, fun ht => ?_, fun ht => ?_⟩
        · rw [h3.1 ht]
          simp [List.countP_cons, advancesNew]
          omega
        · rw [h3.2.1 ht]
          simp [List.countP_cons, advancesOld]
        · rw [h3.2.2 ht]
          simp [List.countP_cons, advancesOld]
    · simp only [runEmit, hc] at hget ⊢
      rcases i with _ | i
      · simp only [List.get?_cons_zero, Option.some.injEq] at hget
        subst hget
        refine ⟨fun ht => by simp at ht, fun _ => by simp, fun ht => by simp at ht⟩
      · simp only [List.get?_cons_succ] at hget
        have h3 := ih hrest (o + 1) n i c hget
        refine ⟨fun ht => ?_, fun ht => ?_, fun ht => ?_⟩
        · rw [h3.1 ht]
          simp [List.countP_cons, advancesNew]
        · rw [h3.2.1 ht]
          simp [List.countP_cons, advancesOld]
          omega
        · rw [h3.2.2 ht]
          simp [List.countP_cons, advancesOld]
          omega
    · simp only [runEmit, hc] at hget ⊢
      rcases i with _ | i
      · simp only [List.get?_cons_zero, Option.some.injEq] at hget
        subst hget
        refine ⟨fun ht => by simp at ht, fun ht => by simp at ht, fun _ => by simp⟩
      · simp only [List.get?_cons_succ] at hget
        have h3 := ih hrest (o + 1) (n + 1) i c hget
        refine ⟨fun ht => ?_, fun ht => ?_, fun ht => ?_⟩
        · rw [h3.1 ht]
          simp [List.countP_cons, advancesNew]
          omega
        · rw [h3.2.1 ht]
          simp [List.countP_cons, advancesOld]
          omega
        · rw [h3.2.2 ht]
          simp [List.countP_cons, advancesOld]
          omega
    · simp only [runEmit, hc] at hget ⊢
      exact ih hrest o n i c hget

/-- C1 counterexample.  On the diff `dC1` (one hunk starting at old line 1
and new line 5) the parser tags its context line with the old-file counter
(line 1), while the claim — context lines carry the new-file number —
demands line 5 (computed here by the spec-modelled variant parser): the
two parsers disagree, refuting the claim as stated. -/
theorem C1_context_uses_old_counter_counterexample :
    (parseDiff dC1).map (fun fc => fc.changes.map (fun c => (c.type, c.lineNumber))) =
      [[(LineType.context, 0), (LineType.context, 1)]] ∧
    (specContextNewParseDiff dC1).map
        (fun fc => fc.changes.map (fun c => (c.type, c.lineNumber))) =
      [[(LineType.context, 0), (LineType.context, 5)]] ∧
    parseDiff dC1 ≠ specContextNewParseDiff dC1 := by
  decide

/-- C1 (amended).  Within a block scan, additions are tagged with the
new-file counter and advance it, deletions and context lines are tagged
with the old-file counter (context lines advance both counters), and both
counters are reset to the declared offsets at each matching `@@` header;
the `foldl`/`runEmit` identification ties the numbering statement to the
parser itself. -/
theorem C1_line_numbering_amended :
    (∀ (lines : List Str) (s : ParseState),
      lines.foldl lineStep s =
        ⟨s.additions +
            (runEmit lines s.currentLineOld s.currentLineNew).1.countP
              (fun c => decide (c.type = LineType.addition)),
          s.deletions +
            (runEmit lines s.currentLineOld s.currentLineNew).1.countP
              (fun c => decide (c.type = LineType.deletion)),
          s.changes ++ (runEmit lines s.currentLineOld s.currentLineNew).1,
          (runEmit lines s.currentLineOld s.currentLineNew).2.1,
          (runEmit lines s.currentLineOld s.currentLineNew).2.2⟩) ∧
    (∀ (s : ParseState) (line : Str) (hdr : Nat × Nat),
      startsWithS "@@" line = true → matchHunkHeader line = some hdr →
      lineStep s line = { s with currentLineOld := hdr.1, currentLineNew := hdr.2 }) ∧
    (∀ (lines : List Str), (∀ l ∈ lines, startsWithS "@@" l = false) →
      ∀ (o n i : Nat) (c : LineChange), (runEmit lines o n).1.get? i = some c →
        (c.type = LineType.addition →
          c.lineNumber = n + ((runEmit lines o n).1.take i).countP advancesNew) ∧
        (c.type = LineType.deletion →
          c.lineNumber = o + ((runEmit lines o n).1.take i).countP advancesOld) ∧
        (c.type = LineType.context →
          c.lineNumber = o + ((runEmit lines o n).1.take i).countP advancesOld)) := by
  refine ⟨foldl_lineStep_eq_runEmit, ?_, runEmit_numbering⟩
  intro s line hdr h1 hm
  simp [lineStep, classifyLine, h1, hm]

/-- C1 witness: a concrete hunk-header reset and a concrete deletion whose
tag equals the old counter plus the preceding old-side emissions. -/
theorem C1_line_numbering_amended_witness :
    lineStep ⟨0, 0, [], 7, 9⟩ (str "@@ -3,2 +5,2 @@") = ⟨0, 0, [], 3, 5⟩ ∧
    (⟨LineType.deletion, 4, str "d"⟩ : LineChange).lineNumber =
      3 + ((runEmit [str "+a", str " c", str "-d"] 3 10).1.take 2).countP advancesOld :=
  ⟨C1_line_numbering_amended.2.1 ⟨0, 0, [], 7, 9⟩ (str "@@ -3,2 +5,2 @@") (3, 5)
      (by decide) (by decide),
    (C1_line_numbering_amended.2.2 [str "+a", str " c", str "-d"] (by decide) 3 10 2
      ⟨LineType.deletion, 4, str "d"⟩ (by decide)).2.1 (by decide)⟩

theorem mCls_sound {p : Char → Bool} {k : List Char → Bool} {s : List Char}
    (h : mCls p k s = true) :
    ∃ c cs, s = c :: cs ∧ p c = true ∧ k cs = true := by
  rcases s with _ | ⟨c, cs⟩
  · simp [mCls] at h
  · simp only [mCls, Bool.and_eq_true] at h
    exact ⟨c, cs, rfl, h.1, h.2⟩

theorem mStar_sound {p : Char → Bool} {k : List Char → Bool} :
    ∀ {s : List Char}, mStar p k s = true → ∃ s', s' <:+ s ∧ k s' = true := by
  intro s
  induction s with
  | nil =>
    intro h
    exact ⟨[], List.suffix_rfl, by simpa [mStar] using h⟩
  | cons c cs ih =>
    intro h
    simp only [mStar, Bool.or_eq_true, Bool.and_eq_true] at h
    rcases h with h | ⟨_, h⟩
    · exact ⟨c :: cs, List.suffix_rfl, h⟩
    · rcases ih h with ⟨s', hsuf, hk⟩
      exact ⟨s', hsuf.trans (List.suffix_cons c cs), hk⟩

theorem mStr_sound {t : Str} {k : List Char → Bool} {s : List Char}
    (h : mStr t k s = true) : k (s.drop t.length) = true ∧ t.isPrefixOf s = true := by
  by_cases hp : t.isPrefixOf s
  · simpa [mStr, hp] using h
  · simp [mStr, hp] at h

theorem mSearch_sound {m : M} :
    ∀ {s : List Char}, mSearch m s = true → ∃ s', s' <:+ s ∧ m mTop s' = true := by
  intro s
  induction s with
  | nil =>
    intro h
    exact ⟨[], List.suffix_rfl, by simpa [mSearch] using h⟩
  | cons c cs ih =>
    intro h
    simp only [mSearch, Bool.or_eq_true] at h
    rcases h with h | h
    · exact ⟨c :: cs, List.suffix_rfl, h⟩
    · rcases ih h with ⟨s', hsuf, hk⟩
      exact ⟨s', hsuf.trans (List.suffix_cons c cs), hk⟩

/-- Any match of the source's unreachable-code regex `return.*\n.*[^}]`
contains a literal newline character. -/
theorem matchUnreachable_newline {s : Str} (h : matchUnreachable s = true) :
    '\n' ∈ s := by
  rw [matchUnreachable] at h
  obtain ⟨s₁, hsuf₁, hm⟩ := mSearch_sound h
  simp only [mSeq] at hm
  obtain ⟨hm₂, _⟩ := mStr_sound hm
  obtain ⟨s₂, hsuf₂, hm₃⟩ := mStar_sound hm₂
  obtain ⟨c, cs, heq, hc, _⟩ := mCls_sound hm₃
  have hcn : c = '\n' := by simpa using hc
  have h1 : '\n' ∈ s₂ := by
    rw [heq, hcn]
    exact List.mem_cons_self _ _
  have h2 : '\n' ∈ s₁.drop (str "return").length :=
    hsuf₂.subset h1
  exact hsuf₁.subset (List.mem_of_mem_drop h2)

theorem splitLines_ne_nil : ∀ s : Str, splitLines s ≠ [] := by
  intro s
  induction s with
  | nil => simp [splitLines]
  | cons c rest ih =>
    simp only [splitLines]
    by_cases hc : c = '\n'
    · simp [hc]
    · simp only [hc, Bool.false_eq_true, if_false]
      rcases hsl : splitLines rest with _ | ⟨l, ls⟩
      · simp
      · simp

theorem splitLines_no_newline : ∀ (s : Str) (l : Str), l ∈ splitLines s → '\n' ∉ l := by
  intro s
  induction s with
  | nil =>
    intro l hl
    simp only [splitLines, List.mem_singleton] at hl
    simp [hl]
  | cons c rest ih =>
    intro l hl
    simp only [splitLines] at hl
    by_cases hc : c = '\n'
    · simp only [hc, if_true] at hl
      rcases List.mem_cons.mp hl with rfl | h
      · simp
      · exact ih l h
    · simp only [hc, Bool.false_eq_true, if_false] at hl
      rcases hsl : splitLines rest with _ | ⟨l₀, ls⟩
      · exact absurd hsl (splitLines_ne_nil rest)
      · rw [hsl] at hl
        rcases List.mem_cons.mp hl with rfl | h
        · intro hmem
          rcases List.mem_cons.mp hmem with h' | h'
          · exact hc h'.symm
          · exact ih l₀ (hsl ▸ List.mem_cons_self l₀ ls) h'
        · exact ih l (hsl ▸ List.mem_cons_of_mem l₀ h)

theorem splitBlocksGo_no_newline :
    ∀ (ls : List Str) (cur : List Str),
      (∀ l ∈ ls, '\n' ∉ l) → (∀ l ∈ cur, '\n' ∉ l) →
      ∀ b ∈ splitBlocksGo cur ls, ∀ l ∈ b, '\n' ∉ l := by
  intro ls
  induction ls with
  | nil =>
    intro cur _ hcur b hb l hl
    simp only [splitBlocksGo, List.mem_singleton] at hb
    subst hb
    exact hcur l (List.mem_reverse.mp hl)
  | cons a as ih =>
    intro cur hls hcur b hb l hl
    have has : ∀ l ∈ as, '\n' ∉ l := fun l h => hls l (List.mem_cons_of_mem a h)
    have ha : '\n' ∉ a := hls a (List.mem_cons_self a as)
    simp only [splitBlocksGo] at hb
    by_cases hstart : isBlockStart a = true
    · simp only [hstart, if_true] at hb
      rcases List.mem_cons.mp hb with rfl | hb'
      · exact hcur l (List.mem_reverse.mp hl)
      · refine ih [a.drop dgTok.length] has ?_ b hb' l hl
        intro l' hl'
        simp only [List.mem_singleton] at hl'
        subst hl'
        intro hmem
        exact ha (List.mem_of_mem_drop hmem)
    · simp only [hstart, Bool.false_eq_true, if_false] at hb
      refine ih (a :: cur) has ?_ b hb l hl
      intro l' hl'
      rcases List.mem_cons.mp hl' with rfl | h
      · exact ha
      · exact hcur l' h

theorem splitBlocks_no_newline :
    ∀ (ls : List Str), (∀ l ∈ ls, '\n' ∉ l) →
      ∀ b ∈ splitBlocks ls, ∀ l ∈ b, '\n' ∉ l := by
  intro ls
  induction ls with
  | nil => intro _ b hb; simp [splitBlocks] at hb
  | cons a as ih =>
    intro hls b hb l hl
    have has : ∀ l ∈ as, '\n' ∉ l := fun l h => hls l (List.mem_cons_of_mem a h)
    have ha : '\n' ∉ a := hls a (List.mem_cons_self a as)
    simp only [splitBlocks] at hb
    by_cases hstart : isBlockStart a = true
    · simp only [hstart, if_true] at hb
      refine splitBlocksGo_no_newline as [a.drop dgTok.length] has ?_ b hb l hl
      intro l' hl'
      simp only [List.mem_singleton] at hl'
      subst hl'
      intro hmem
      exact ha (List.mem_of_mem_drop hmem)
    · simp only [hstart, Bool.false_eq_true, if_false] at hb
      exact ih has b hb l hl

theorem runEmit_content_from_line :
    ∀ (lines : List Str) (o n : Nat) (c : LineChange),
      c ∈ (runEmit lines o n).1 →
      ∃ l ∈ lines, c.content = l.drop 1 ∨ c.content = l := by
  intro lines
  induction lines with
  | nil => intro o n c hc; simp [runEmit] at hc
  | cons line rest ih =>
    intro o n c hc
    have step : ∀ o' n', c ∈ (runEmit rest o' n').1 →
        ∃ l ∈ line :: rest, c.content = l.drop 1 ∨ c.content = l := by
      intro o' n' h
      rcases ih o' n' c h with ⟨l, hl, hcc⟩
      exact ⟨l, List.mem_cons_of_mem line hl, hcc⟩
    rcases hcl : classifyLine line with x | _ | _ | _ | _ <;>
      simp only [runEmit, hcl] at hc
    · rcases x with _ | hdr
      · exact step o n hc
      · exact step hdr.1 hdr.2 hc
    · rcases List.mem_cons.mp hc with rfl | h
      · exact ⟨line, List.mem_cons_self line rest, Or.inl rfl⟩
      · exact step o (n + 1) h
    · rcases List.mem_cons.mp hc with rfl | h
      · exact ⟨line, List.mem_cons_self line rest, Or.inl rfl⟩
      · exact step (o + 1) n h
    · rcases List.mem_cons.mp hc with rfl | h
      · refine ⟨line, List.mem_cons_self line rest, ?_⟩
        by_cases hsp : startsWithS " " line = true <;> simp [hsp]
      · exact step (o + 1) (n + 1) h
    · exact step o n hc

/-- No `LineChange` produced by the parser carries a newline in its
content: block lines come from the newline split of the diff, and emitted
contents are those lines or their one-character tails. -/
theorem parseDiff_content_no_newline :
    ∀ (diff : Str) (fc : FileChange), fc ∈ parseDiff diff →
      ∀ c ∈ fc.changes, '\n' ∉ c.content := by
  intro diff fc hmem c hc
  have hpd := foldl_pushParsed_eq_filterMap (splitBlocks (splitLines diff)) []
  rw [List.nil_append] at hpd
  rw [parseDiff, hpd] at hmem
  rcases List.mem_filterMap.mp hmem with ⟨b, hb, hparse⟩
  have hblines : ∀ l ∈ b, '\n' ∉ l :=
    splitBlocks_no_newline (splitLines diff)
      (fun l hl => splitLines_no_newline diff l hl) b hb
  rw [parseBlock] at hparse
  rcases hh : matchHeaderRest (b.headD []) with _ | names
  · rw [hh] at hparse
    exact absurd hparse (by simp)
  · rw [hh] at hparse
    have hfc := Option.some.inj hparse
    rw [foldl_lineStep_eq_runEmit b ⟨0, 0, [], 0, 0⟩] at hfc
    subst hfc
    simp only [List.nil_append] at hc
    rcases runEmit_content_from_line b 0 0 c hc with ⟨l, hl, hcc | hcc⟩
    · rw [hcc]
      intro hmem'
      exact hblines l hl (List.mem_of_mem_drop hmem')
    · rw [hcc]
      exact hblines l hl

theorem logicalBugsLine_title_cases (fc : FileChange) (ext : Str)
    (line : LineChange) (issue : ReviewIssue)
    (h : issue ∈ logicalBugsLine fc ext line) :
    (issue.title = str "Potentially unreachable code" →
      matchUnreachable line.content = true ∧ issue.line = some line.lineNumber) ∧
    (issue.title = str "Array access without bounds check" →
      arrayAccessCond line.content = true ∧ issue.line = some line.lineNumber) := by
  simp only [logicalBugsLine, List.mem_append] at h
  rcases h with ((((h | h) | h) | h) | h) | h
  · by_cases h1 : (matchWordDotWord line.content && !matchOptChain line.content) = true
    · simp only [h1, if_true] at h
      by_cases h2 : (!hasNullCheckNearby fc line.lineNumber &&
          !matchGuard line.content) = true
      · simp only [h2, if_true, List.mem_singleton] at h
        subst h
        exact ⟨fun ht => absurd ht (show str "Potential null/undefined access" ≠
            str "Potentially unreachable code" by decide),
          fun ht => absurd ht (show str "Potential null/undefined access" ≠
            str "Array access without bounds check" by decide)⟩
      · simp [h2] at h
    · simp [h1] at h
  · by_cases h1 : arrayAccessCond line.content = true
    · simp only [h1, if_true, List.mem_singleton] at h
      subst h
      exact ⟨fun ht => absurd ht (show str "Array access without bounds check" ≠
          str "Potentially unreachable code" by decide),
        fun _ => ⟨h1, rfl⟩⟩
    · simp [h1] at h
  · by_cases h1 : matchInfiniteLoop line.content = true
    · simp only [h1, if_true, List.mem_singleton] at h
      subst h
      exact ⟨fun ht => absurd ht (show str "Potential infinite loop" ≠
          str "Potentially unreachable code" by decide),
        fun ht => absurd ht (show str "Potential infinite loop" ≠
          str "Array access without bounds check" by decide)⟩
    · simp [h1] at h
  · by_cases h1 : matchAssignInCond line.content = true
    · simp only [h1, if_true, List.mem_singleton] at h
      subst h
      exact ⟨fun ht => absurd ht (show str "Assignment in conditional" ≠
          str "Potentially unreachable code" by decide),
        fun ht => absurd ht (show str "Assignment in conditional" ≠
          str "Array access without bounds check" by decide)⟩
    · simp [h1] at h
  · by_cases h1 : matchUnreachable line.content = true
    · simp only [h1, if_true, List.mem_singleton] at h
      subst h
      exact ⟨fun _ => ⟨h1, rfl⟩,
        fun ht => absurd ht (show str "Potentially unreachable code" ≠
          str "Array access without bounds check" by decide)⟩
    · simp [h1] at h
  · by_cases h1 : ((ext = str ".js" ∨ ext = str ".ts") &&
        matchCoercion line.content) = true
    · simp only [h1, if_true, List.mem_singleton] at h
      subst h
      exact ⟨fun ht => absurd ht (show str "Potential type coercion" ≠
          str "Potentially unreachable code" by decide),
        fun ht => absurd ht (show str "Potential type coercion" ≠
          str "Array access without bounds check" by decide)⟩
    · simp only [h1, Bool.false_eq_true, if_false, List.not_mem_nil] at h

theorem allWs_not_startsWith (w : Str) (hw : ∀ c ∈ w, jsWs c = true)
    (p : String) (hne : p.toList ≠ []) (hp : jsWs (p.toList.headD ' ') = false) :
    startsWithS p w = false := by
  rcases hpt : p.toList with _ | ⟨c, t⟩
  · exact absurd hpt hne
  · have hpc : jsWs c = false := by
      rw [hpt] at hp
      simpa using hp
    have hpd : p.data = c :: t := hpt
    rcases w with _ | ⟨a, as⟩
    · simp [startsWithS, str, String.toList, hpd, List.isPrefixOf]
    · have ha := hw a (List.mem_cons_self a as)
      have hca : (c == a) = false := by
        refine beq_eq_false_iff_ne.mpr ?_
        intro h
        rw [h, ha] at hpc
        exact Bool.true_eq_false.mp hpc
      simp [startsWithS, str, String.toList, hpd, List.isPrefixOf, hca]

theorem allWs_jsTrim_eq_nil (w : Str) (hw : ∀ c ∈ w, jsWs c = true) :
    jsTrim w = [] := by
  have h1 : w.dropWhile jsWs = [] := by
    induction w with
    | nil => rfl
    | cons a as ih =>
      rw [List.dropWhile_cons_of_pos (hw a (List.mem_cons_self a as))]
      exact ih (fun c hc => hw c (List.mem_cons_of_mem a hc))
  simp [jsTrim, h1]

theorem allWs_classify_skip (w : Str) (hw : ∀ c ∈ w, jsWs c = true) :
    classifyLine w = .skip := by
  have h1 := allWs_not_startsWith w hw "@@" (by decide) (by decide)
  have h2 := allWs_not_startsWith w hw "+" (by decide) (by decide)
  have h3 := allWs_not_startsWith w hw "-" (by decide) (by decide)
  have h4 := allWs_not_startsWith w hw "\\" (by decide) (by decide)
  have h5 := allWs_not_startsWith w hw "diff" (by decide) (by decide)
  have h6 := allWs_not_startsWith w hw "index" (by decide) (by decide)
  have h7 : (jsTrim w).isEmpty = true := by simp [allWs_jsTrim_eq_nil w hw]
  simp [classifyLine, h1, h2, h3, h4, h5, h6, h7]

theorem runEmit_shift :
    ∀ (lines : List Str) (o n k : Nat), (∀ l ∈ lines, startsWithS "@@" l = false) →
      (runEmit lines (o + k) (n + k)).1 =
        (runEmit lines o n).1.map (fun c => { c with lineNumber := c.lineNumber + k }) ∧
      (runEmit lines (o + k) (n + k)).2.1 = (runEmit lines o n).2.1 + k ∧
      (runEmit lines (o + k) (n + k)).2.2 = (runEmit lines o n).2.2 + k := by
  intro lines
  induction lines with
  | nil => intro o n k _; simp [runEmit]
  | cons line rest ih =>
    intro o n k hno
    have hline := hno line (List.mem_cons_self line rest)
    have hrest : ∀ l ∈ rest, startsWithS "@@" l = false := fun l hl =>
      hno l (List.mem_cons_of_mem line hl)
    rcases hc : classifyLine line with x | _ | _ | _ | _
    · exact absurd (classifyLine_hunkHeader hc) (by simp [hline])
    · have h3 := ih o (n + 1) k hrest
      simp only [runEmit, hc]
      rw [show n + k + 1 = n + 1 + k by omega]
      refine ⟨?_, h3.2⟩
      simp [h3.1]
    · have h3 := ih (o + 1) n k hrest
      simp only [runEmit, hc]
      rw [show o + k + 1 = o + 1 + k by omega]
      refine ⟨?_, h3.2⟩
      simp [h3.1]
    · have h3 := ih (o + 1) (n + 1) k hrest
      simp only [runEmit, hc]
      rw [show o + k + 1 = o + 1 + k by omega, show n + k + 1 = n + 1 + k by omega]
      refine ⟨?_, h3.2⟩
      simp [h3.1]
    · simp only [runEmit, hc]
      exact ih o n k hrest

/-- C10.  An empty or whitespace-only line inside a file block (which is
not an addition, deletion, metadata or hunk-header line) produces no
`LineChange` and advances neither counter: the scan state is unchanged, so
the scan of `blank :: rest` equals the scan of `rest` alone.  Moreover the
scan is uniformly shifted by its starting counters (within a hunk, i.e.
absent further `@@` headers), so counting such a blank as the context line
it represents would raise every subsequently recorded `lineNumber` by one
per skipped blank — the recorded numbers are lower than the true file
positions by exactly the number of skipped blanks. -/
theorem C10_blank_lines_skipped :
    (∀ (s : ParseState) (w : Str), (∀ c ∈ w, jsWs c = true) → lineStep s w = s) ∧
    (∀ (s : ParseState) (w : Str) (rest : List Str), (∀ c ∈ w, jsWs c = true) →
      (w :: rest).foldl lineStep s = rest.foldl lineStep s) ∧
    (∀ (lines : List Str) (o n k : Nat), (∀ l ∈ lines, startsWithS "@@" l = false) →
      (runEmit lines (o + k) (n + k)).1 =
        (runEmit lines o n).1.map (fun c => { c with lineNumber := c.lineNumber + k }) ∧
      (runEmit lines (o + k) (n + k)).2.1 = (runEmit lines o n).2.1 + k ∧
      (runEmit lines (o + k) (n + k)).2.2 = (runEmit lines o n).2.2 + k) := by
  refine ⟨?_, ?_, runEmit_shift⟩
  · intro s w hw
    simp [lineStep, allWs_classify_skip w hw]
  · intro s w rest hw
    simp only [List.foldl_cons]
    rw [show lineStep s w = s by simp [lineStep, allWs_classify_skip w hw]]

/-- C10 witness: a concrete whitespace-only line is inert, and a concrete
counter shift moves an emitted addition's number accordingly. -/
theorem C10_blank_lines_skipped_witness :
    lineStep ⟨0, 0, [], 4, 7⟩ (str "   ") = ⟨0, 0, [], 4, 7⟩ ∧
    ([str "   ", str "+x"].foldl lineStep ⟨0, 0, [], 4, 7⟩ =
      [str "+x"].foldl lineStep ⟨0, 0, [], 4, 7⟩) ∧
    (runEmit [str "+a"] (1 + 3) (2 + 3)).1 =
      (runEmit [str "+a"] 1 2).1.map (fun c => { c with lineNumber := c.lineNumber + 3 }) :=
  ⟨C10_blank_lines_skipped.1 ⟨0, 0, [], 4, 7⟩ (str "   ") (by decide),
    C10_blank_lines_skipped.2.1 ⟨0, 0, [], 4, 7⟩ (str "   ") [str "+x"] (by decide),
    (C10_blank_lines_skipped.2.2 [str "+a"] 1 2 3 (by decide)).1⟩

/-- C4 (code bug).  The "code after return" detector can never fire: its
regex `return.*\n.*[^}]` only matches strings containing a literal
newline, while every parsed line content is newline-free — so no parsed
file ever yields a 'Potentially unreachable code' issue.  At the failing
input `return x; cleanup();` (which satisfies the claimed trigger,
`specCodeAfterReturn`) the logical-bug analyzer emits nothing, where the
claim demands a minor unreachable-code issue. -/
theorem C4_unreachable_detector_dead :
    (∀ (diff : Str) (fc : FileChange), fc ∈ parseDiff diff →
      ∀ issue ∈ analyzeLogicalBugs fc,
        issue.title ≠ str "Potentially unreachable code") ∧
    analyzeLogicalBugs fcC4 = [] ∧
    specCodeAfterReturn (str "return x; cleanup();") = true ∧
    matchUnreachable (str "return x; cleanup();") = false := by
  refine ⟨?_, by decide, by decide, by decide⟩
  intro diff fc hfc issue hissue ht
  rw [analyzeLogicalBugs] at hissue
  rcases List.mem_flatMap.mp hissue with ⟨line, hline, hmem⟩
  have hcase := (logicalBugsLine_title_cases fc _ line issue hmem).1 ht
  have hlc : line ∈ fc.changes := by
    have h' := hline
    simp only [addedLines, List.mem_filter] at h'
    exact h'.1
  exact parseDiff_content_no_newline diff fc hfc line hlc
    (matchUnreachable_newline hcase.1)

/-- C4 witness: on a parsed diff whose added line produces a logical-bug
issue, that issue's title is not the unreachable-code title. -/
theorem C4_unreachable_detector_dead_witness :
    ((analyzeLogicalBugs
          ((parseDiff dC4w).headD ⟨[], [], false, false, 0, 0, [], []⟩)).headD
        (exIssue .info "none")).title ≠ str "Potentially unreachable code" :=
  C4_unreachable_detector_dead.1 dC4w
    ((parseDiff dC4w).headD ⟨[], [], false, false, 0, 0, [], []⟩) (by decide)
    ((analyzeLogicalBugs
        ((parseDiff dC4w).headD ⟨[], [], false, false, 0, 0, [], []⟩)).headD
      (exIssue .info "none")) (by decide)

/-- C5 counterexample.  The added line `const a = arr[0].length;` contains
a bracket-index expression together with a `.length` check, yet the
analyzer emits an 'Array access without bounds check' issue for it — the
numeric-index alternative bypasses the `.length` suppression by operator
precedence. -/
theorem C5_length_check_counterexample :
    matchAnyIndex (str "const a = arr[0].length;") = true ∧
    matchDotLength (str "const a = arr[0].length;") = true ∧
    (analyzeLogicalBugs fcC5).map (fun i => i.title) =
      [str "Array access without bounds check"] := by
  decide

/-- C5 (amended).  The `.length` suppression applies only to the general
bracket pattern: a line matching the general pattern but not the
numeric-literal index pattern and containing `.length` is never flagged,
while a line with a numeric-literal index is flagged regardless of
`.length`; and every emitted array-bounds issue stems from an added line
whose guard condition holds, located at that line. -/
theorem C5_array_suppression_amended :
    (∀ s : Str, matchAnyIndex s = true → matchDotLength s = true →
      matchNumIndex s = false → arrayAccessCond s = false) ∧
    (∀ s : Str, matchNumIndex s = true → arrayAccessCond s = true) ∧
    (∀ (fc : FileChange) (issue : ReviewIssue), issue ∈ analyzeLogicalBugs fc →
      issue.title = str "Array access without bounds check" →
      ∃ line ∈ addedLines fc, arrayAccessCond line.content = true ∧
        issue.line = some line.lineNumber) := by
  refine ⟨?_, ?_, ?_⟩
  · intro s h1 h2 h3
    simp [arrayAccessCond, h1, h2, h3]
  · intro s h
    simp [arrayAccessCond, h]
  · intro fc issue hmem ht
    rw [analyzeLogicalBugs] at hmem
    rcases List.mem_flatMap.mp hmem with ⟨line, hline, hmem'⟩
    have hcase := (logicalBugsLine_title_cases fc _ line issue hmem').2 ht
    exact ⟨line, hline, hcase.1, hcase.2⟩

/-- C5 witness: a guarded non-numeric index line is not flagged; a bare
numeric index is. -/
theorem C5_array_suppression_amended_witness :
    arrayAccessCond lineC5w = false ∧ arrayAccessCond (str "x[0]") = true :=
  ⟨C5_array_suppression_amended.1 lineC5w (by decide) (by decide) (by decide),
    C5_array_suppression_amended.2.1 (str "x[0]") (by decide)⟩

theorem jsSliceLast_subset (n : Nat) (l : List α) : jsSliceLast n l ⊆ l := by
  unfold jsSliceLast
  split
  · exact fun _ h => h
  · exact List.drop_subset _ l

theorem jsSliceLast_length_le {n : Nat} (hn : n ≠ 0) (l : List α) :
    (jsSliceLast n l).length ≤ n := by
  unfold jsSliceLast
  rw [if_neg hn, List.length_drop]
  omega

theorem jsSliceLast_of_length_le {n : Nat} {l : List α} (h : l.length ≤ n) :
    jsSliceLast n l = l := by
  unfold jsSliceLast
  split
  · rfl
  · rw [show l.length - n = 0 by omega, List.drop_zero]

/-- C6 counterexample.  In `fcC6` (changes at lines 3, 9 and 10) with
target line 10 and radius 2, the two closest recorded changes strictly
before the target by line number are lines 3 and 9 (computed by the
claim-modelled selection), but the code's window keeps only line 9: the
change at line 3 is outside the `[target-N, target)` distance window and
is not part of the emitted context selection, refuting the claim. -/
theorem C6_context_window_counterexample :
    (claimClosestBefore fcC6 10 2).map (fun l => l.lineNumber) = [3, 9] ∧
    (ctxBefore fcC6 10 2).map (fun l => l.lineNumber) = [9] ∧
    (⟨LineType.addition, 3, str "a"⟩ : LineChange) ∈ claimClosestBefore fcC6 10 2 ∧
    (⟨LineType.addition, 3, str "a"⟩ : LineChange) ∉
      contextSelection fcC6 10 2 ⟨LineType.addition, 10, str "c"⟩ ∧
    (sortedChanges fcC6).find? (fun l => decide (l.lineNumber = 10)) =
      some ⟨LineType.addition, 10, str "c"⟩ := by
  decide

/-- C6 (amended).  The context window contains, besides the flagged line,
only recorded changes within distance N of it: up to N of the changes with
line number in `[target-N, target)` (the latest ones) and up to N of those
in `(target, target+N]` (the earliest ones); all such changes are included
whenever at most N of them exist on the respective side (no padding, no
error), and the emitted snippet is exactly the window formatted with the
line-number gutter, the directional marker on the flagged line, and the
`+`/`-`/space type indicator. -/
theorem C6_context_window_amended :
    (∀ (fc : FileChange) (t n : Nat) (c : LineChange), c ∈ ctxBefore fc t n →
      c.lineNumber < t ∧ t ≤ c.lineNumber + n) ∧
    (∀ (fc : FileChange) (t n : Nat) (c : LineChange), c ∈ ctxAfter fc t n →
      t < c.lineNumber ∧ c.lineNumber ≤ t + n) ∧
    (∀ (fc : FileChange) (t n : Nat),
      (ctxBefore fc t n).length ≤ n ∧ (ctxAfter fc t n).length ≤ n) ∧
    (∀ (fc : FileChange) (t n : Nat) (c : LineChange), c ∈ fc.changes →
      c.lineNumber < t → t ≤ c.lineNumber + n →
      ((sortedChanges fc).filter (fun l =>
        decide (l.lineNumber < t) && decide (t - n ≤ l.lineNumber))).length ≤ n →
      c ∈ ctxBefore fc t n) ∧
    (∀ (fc : FileChange) (t n : Nat) (c : LineChange), c ∈ fc.changes →
      t < c.lineNumber → c.lineNumber ≤ t + n →
      ((sortedChanges fc).filter (fun l =>
        decide (t < l.lineNumber) && decide (l.lineNumber ≤ t + n))).length ≤ n →
      c ∈ ctxAfter fc t n) ∧
    (∀ (fc : FileChange) (t n : Nat) (target : LineChange),
      (sortedChanges fc).find? (fun l => decide (l.lineNumber = t)) = some target →
      getCodeContext fc t n =
        List.intercalate (str "\n")
          ((contextSelection fc t n target).map (formatCtxLine t))) := by
  refine ⟨?_, ?_, ?_, ?_, ?_, ?_⟩
  · intro fc t n c hc
    have hc' := jsSliceLast_subset n _ hc
    have hp := (List.mem_filter.mp hc').2
    simp only [Bool.and_eq_true, decide_eq_true_eq] at hp
    exact ⟨hp.1, Nat.sub_le_iff_le_add.mp hp.2⟩
  · intro fc t n c hc
    have hc' := List.mem_of_mem_take hc
    have hp := (List.mem_filter.mp hc').2
    simp only [Bool.and_eq_true, decide_eq_true_eq] at hp
    exact hp
  · intro fc t n
    constructor
    · rcases Nat.eq_zero_or_pos n with hn | hn
      · subst hn
        have hnil : (sortedChanges fc).filter (fun l =>
            decide (l.lineNumber < t) && decide (t - 0 ≤ l.lineNumber)) = [] := by
          rw [List.filter_eq_nil_iff]
          intro a _
          simp only [Bool.and_eq_true, decide_eq_true_eq, not_and]
          intro h1 h2
          omega
        simp [ctxBefore, hnil, jsSliceLast]
      · exact jsSliceLast_length_le (by omega) _
    · have h1 : (((sortedChanges fc).filter (fun l =>
          decide (t < l.lineNumber) && decide (l.lineNumber ≤ t + n))).take n).length ≤ n := by
        simp [List.length_take]
      exact h1
  · intro fc t n c hmem hlt hle hlen
    rcases Nat.eq_zero_or_pos n with hn | _
    · omega
    · rw [ctxBefore, jsSliceLast_of_length_le hlen]
      refine List.mem_filter.mpr ⟨?_, ?_⟩
      · exact ((jsSort_perm lineNumberComparator fc.changes).mem_iff).mpr hmem
      · simp only [Bool.and_eq_true, decide_eq_true_eq]
        omega
  · intro fc t n c hmem hlt hle hlen
    rw [ctxAfter, List.take_of_length_le hlen]
    refine List.mem_filter.mpr ⟨?_, ?_⟩
    · exact ((jsSort_perm lineNumberComparator fc.changes).mem_iff).mpr hmem
    · simp only [Bool.and_eq_true, decide_eq_true_eq]
      exact ⟨hlt, hle⟩
  · intro fc t n target hfind
    have htn : target.lineNumber = t := by
      have := List.find?_some hfind
      simpa using this
    simp only [getCodeContext, hfind]
    by_cases hlen : (contextSelection fc t n target).length = 1
    · have hparts : ctxBefore fc t n = [] ∧ ctxAfter fc t n = [] := by
        rw [contextSelection, List.length_append, List.length_cons] at hlen
        constructor
        · exact List.eq_nil_of_length_eq_zero (by omega)
        · exact List.eq_nil_of_length_eq_zero (by omega)
      rw [contextSelection, hparts.1, hparts.2] at hlen ⊢
      simp only [List.nil_append, List.map_cons, List.map_nil, hlen, if_true]
      simp [List.intercalate, formatCtxLine, htn]
    · simp only [hlen, if_false]

/-- C6 witness: the amended window facts instantiated on `fcC6` with
target 10 and radius 2. -/
theorem C6_context_window_amended_witness :
    ((⟨LineType.addition, 9, str "b"⟩ : LineChange).lineNumber < 10 ∧
      10 ≤ (⟨LineType.addition, 9, str "b"⟩ : LineChange).lineNumber + 2) ∧
    ((ctxBefore fcC6 10 2).length ≤ 2 ∧ (ctxAfter fcC6 10 2).length ≤ 2) ∧
    (⟨LineType.addition, 9, str "b"⟩ : LineChange) ∈ ctxBefore fcC6 10 2 ∧
    getCodeContext fcC6 10 2 =
      List.intercalate (str "\n")
        ((contextSelection fcC6 10 2 ⟨LineType.addition, 10, str "c"⟩).map
          (formatCtxLine 10)) :=
  ⟨C6_context_window_amended.1 fcC6 10 2 ⟨LineType.addition, 9, str "b"⟩ (by decide),
    C6_context_window_amended.2.2.1 fcC6 10 2,
    C6_context_window_amended.2.2.2.1 fcC6 10 2 ⟨LineType.addition, 9, str "b"⟩
      (by decide) (by decide) (by decide) (by decide),
    C6_context_window_amended.2.2.2.2.2 fcC6 10 2 ⟨LineType.addition, 10, str "c"⟩
      (by decide)⟩

/-- C2.  The final issue sequence returned by the orchestrator is sorted by
severity weight descending (critical=4, major=3, minor=2, info=1) and the
sort is stable: for each severity the subsequence of issues of that
severity is exactly the one of the unsorted detector output; on the
concrete severities `[minor, critical, major, info, critical]` the output
is `[critical, critical, major, minor, info]` with the two criticals in
their original relative order. -/
theorem C2_sort_by_severity_stable :
    (∀ (diff : Str) (opts : ReviewOptions),
      (analyzeDiff diff opts).issues.Pairwise
        (fun a b => getSeverityWeight b.severity ≤ getSeverityWeight a.severity)) ∧
    (∀ (diff : Str) (opts : ReviewOptions) (s : Severity),
      (analyzeDiff diff opts).issues.filter (fun i => decide (i.severity = s)) =
        (collectIssues
            (filterFiles (parseDiff diff) opts.fileExtensions opts.excludePatterns)
            (resolvePrompt opts)).filter (fun i => decide (i.severity = s))) ∧
    sortIssues exIssuesC2 =
      [exIssue .critical "i2", exIssue .critical "i5", exIssue .major "i3",
        exIssue .minor "i1", exIssue .info "i4"] := by
  refine ⟨fun diff opts => ?_, fun diff opts s => ?_, by decide⟩
  · refine @jsSort_pairwise _ _ severityComparator ?_ ?_ ?_ _
    · intro a b d hab hbd
      exact le_trans hbd hab
    · intro a b h
      simp only [severityComparator] at h
      omega
    · intro a b h
      simp only [severityComparator] at h
      omega
  · refine filter_jsSort severityComparator _ ?_ _
    intro x y hx hy
    have hx' : x.severity = s := of_decide_eq_true hx
    have hy' : y.severity = s := of_decide_eq_true hy
    simp [severityComparator, hx', hy']

end AiCodeReviewer
